import Mathlib

/-!
# tonsub: transaction classifier, payload decoders and subscription loop

A shallow embedding of `tonsub.go`, `ton.go`, `jetton.go` and `nft.go`.

* Cells are finite trees: a bit string plus an ordered list of child cells.
* A `Slice` is the reading cursor of the `tonutils-go` cell package: the bits
  and the child references that are still unread.
* Go strings are byte sequences; a comment (`Body.Message`) is kept as its
  list of bytes.  Strings produced by the library's `String()` methods are
  Lean strings.
* Go's `(value, error)` results are `Except`; a Go panic is a separate outcome.
* The subscription loop is a function from the feed to the ordered list of
  decoder and handler calls it performs.
-/

namespace Tonsub

/-! ## Cells and the cell reader -/

/-- A cell of the ledger's wire format: payload bits and child cells. -/
inductive Cell where
  | mk (bits : List Bool) (refs : List Cell)

/-- Payload bits of a cell. -/
def Cell.bits : Cell → List Bool
  | .mk b _ => b

/-- Child cells of a cell. -/
def Cell.refs : Cell → List Cell
  | .mk _ r => r

/-- Reading cursor over one cell: the unread bits and the unread children. -/
structure Slice where
  bits : List Bool
  refs : List Cell

/-- Errors of the cell reader. -/
inductive CellError where
  | notEnoughData
  | tooBigValue
  | noMoreRefs
  | notSnake
  deriving DecidableEq, Repr

/-- Modelled from the spec: `Cell.BeginParse` of the cell library (CellReader of
section 4.1), a fresh cursor at bit 0 and child 0; it never yields nil. -/
def Cell.BeginParse (c : Cell) : Slice :=
  ⟨c.bits, c.refs⟩

/-- Big-endian value of a bit string. -/
def bitsToNat (bits : List Bool) : Nat :=
  bits.foldl (fun acc b => 2 * acc + (if b then 1 else 0)) 0

/-- The `w`-bit big-endian encoding of `n` (the builder's `StoreUInt`). -/
def natToBits : Nat → Nat → List Bool
  | 0, _ => []
  | w + 1, n => natToBits w (n / 2) ++ [n % 2 == 1]

/-- Bytes of a bit string, `n` of them: eight bits per byte, most significant
bit first, the last byte padded with zero bits. -/
def bytesAux : Nat → List Bool → List Nat
  | 0, _ => []
  | n + 1, bits =>
    bitsToNat ((bits ++ List.replicate 7 false).take 8) :: bytesAux n (bits.drop 8)

/-- Bytes of a bit string, as `LoadSlice` returns them. -/
def bitsToBytes (bits : List Bool) : List Nat :=
  bytesAux ((bits.length + 7) / 8) bits

/-- The bits of a byte string (the builder's `StoreSlice` of whole bytes). -/
def bytesToBits (bytes : List Nat) : List Bool :=
  bytes.flatMap (natToBits 8)

/-- Modelled from the spec: `Slice.LoadSlice(sz)` of the cell library: fails
when fewer than `sz` bits remain (the cursor is then unchanged), else returns
the next `sz` bits as bytes and advances. -/
def Slice.LoadSlice (s : Slice) (sz : Nat) : Except CellError (List Nat × Slice) :=
  if s.bits.length < sz then .error .notEnoughData
  else .ok (bitsToBytes (s.bits.take sz), { s with bits := s.bits.drop sz })

/-- Modelled from the spec: `Slice.LoadUInt(sz)` of the cell library
(`readUint` of section 4.1): the next `sz` bits as a big-endian unsigned
integer, truncated to 64 bits; fails when fewer bits remain or `sz > 256`. -/
def Slice.LoadUInt (s : Slice) (sz : Nat) : Except CellError (Nat × Slice) :=
  if 256 < sz then .error .tooBigValue
  else if s.bits.length < sz then .error .notEnoughData
  else .ok (bitsToNat (s.bits.take sz) % 2 ^ 64, { s with bits := s.bits.drop sz })

/-- Modelled from the spec: `Slice.LoadBigUInt(sz)` of the cell library: as
`LoadUInt` without the truncation to 64 bits. -/
def Slice.LoadBigUInt (s : Slice) (sz : Nat) : Except CellError (Nat × Slice) :=
  if 256 < sz then .error .tooBigValue
  else if s.bits.length < sz then .error .notEnoughData
  else .ok (bitsToNat (s.bits.take sz), { s with bits := s.bits.drop sz })

/-- Modelled from the spec: `Slice.LoadBigCoins` of the cell library
(`readAmount` of section 4.1): a 4-bit byte count followed by that many bytes
of a big-endian non-negative integer. -/
def Slice.LoadBigCoins (s : Slice) : Except CellError (Nat × Slice) :=
  match s.LoadUInt 4 with
  | .error e => .error e
  | .ok (ln, s1) => s1.LoadBigUInt (ln * 8)

/-- Ledger addresses, by shape. -/
inductive Address where
  | none
  | ext (bitsLen : Nat) (data : List Nat)
  | std (workchain : Int) (data : List Nat)
  | var (workchain : Int) (bitsLen : Nat) (data : List Nat)
  deriving DecidableEq, Repr

/-- The test `a.Type() != address.NoneAddress` of `nft.go`, negated. -/
def Address.isNone : Address → Bool
  | .none => true
  | _ => false

/-- Signed reading of a `w`-bit unsigned value (two's complement). -/
def toSigned (w v : Nat) : Int :=
  if v < 2 ^ (w - 1) then (v : Int) else (v : Int) - 2 ^ w

/-- Skips the anycast prefix when the anycast bit was set: a 5-bit depth and
that many prefix bits. -/
def skipAnycast (isAnycast : Nat) (s : Slice) : Except CellError Slice :=
  if isAnycast = 0 then .ok s
  else
    match s.LoadUInt 5 with
    | .error e => .error e
    | .ok (depth, s1) =>
      match s1.LoadSlice depth with
      | .error e => .error e
      | .ok (_, s2) => .ok s2

/-- Modelled from the spec: `Slice.LoadAddr` of the cell library (`readAddress`
of section 4.1).  A 2-bit shape tag selects the shape, as in the library's
reader: `10` the standard shape (an anycast bit, an 8-bit workchain and a
256-bit account id), `00` the absent address, `01` an external and `11` a
variable-length address; a read past the end of the payload fails. -/
def Slice.LoadAddr (s : Slice) : Except CellError (Address × Slice) :=
  match s.LoadUInt 2 with
  | .error e => .error e
  | .ok (typ, s1) =>
    if typ = 2 then
      match s1.LoadUInt 1 with
      | .error e => .error e
      | .ok (isAnycast, s2) =>
        match skipAnycast isAnycast s2 with
        | .error e => .error e
        | .ok s3 =>
          match s3.LoadUInt 8 with
          | .error e => .error e
          | .ok (workchain, s4) =>
            match s4.LoadSlice 256 with
            | .error e => .error e
            | .ok (data, s5) => .ok (.std (toSigned 8 workchain) data, s5)
    else if typ = 0 then .ok (.none, s1)
    else if typ = 1 then
      match s1.LoadUInt 9 with
      | .error e => .error e
      | .ok (ln, s2) =>
        match s2.LoadSlice ln with
        | .error e => .error e
        | .ok (data, s3) => .ok (.ext ln data, s3)
    else
      match s1.LoadUInt 1 with
      | .error e => .error e
      | .ok (isAnycast, s2) =>
        match skipAnycast isAnycast s2 with
        | .error e => .error e
        | .ok s3 =>
          match s3.LoadUInt 9 with
          | .error e => .error e
          | .ok (ln, s4) =>
            match s4.LoadUInt 32 with
            | .error e => .error e
            | .ok (workchain, s5) =>
              match s5.LoadSlice ln with
              | .error e => .error e
              | .ok (data, s6) => .ok (.var (toSigned 32 workchain) ln data, s6)

/-- Modelled from the spec: `Slice.LoadMaybeRef` of the cell library
(`readOptionalChildRef` of section 4.1): one flag bit; clear gives "absent"
(nil), set gives a cursor on the next unread child and fails when no child
remains. -/
def Slice.LoadMaybeRef (s : Slice) : Except CellError (Option Slice × Slice) :=
  match s.LoadUInt 1 with
  | .error e => .error e
  | .ok (has, s1) =>
    if has = 0 then .ok (Option.none, s1)
    else
      match s1.refs with
      | [] => .error .noMoreRefs
      | ref :: rest => .ok (some ref.BeginParse, { s1 with refs := rest })

/-- The chained string held by a whole cell and its continuation cells. -/
def Cell.snake : Cell → Except CellError (List Nat)
  | .mk bits [] => .ok (bitsToBytes bits)
  | .mk bits [c] =>
    match c.snake with
    | .ok r => .ok (bitsToBytes bits ++ r)
    | .error e => .error e
  | .mk _ (_ :: _ :: _) => .error .notSnake

/-- Modelled from the spec: `Slice.LoadStringSnake` of the cell library
(`readChainedString` of section 4.1): all remaining bits of the cursor as
bytes, then, while the cell read has exactly one child, the whole content of
that child; a cell with more than one child is not a chain and fails. -/
def Slice.LoadStringSnake (s : Slice) : Except CellError (List Nat) :=
  match s.refs with
  | [] => .ok (bitsToBytes s.bits)
  | [c] =>
    match c.snake with
    | .ok r => .ok (bitsToBytes s.bits ++ r)
    | .error e => .error e
  | _ :: _ :: _ => .error .notSnake

/-! ## Messages, transactions and records -/

/-- The fields of `tlb.InternalMessage` the decoders read.  `SrcAddr`, `DstAddr`
and `Body` are never nil in a message loaded from the ledger. -/
structure InternalMessage where
  IHRDisabled : Bool
  Bounce : Bool
  Bounced : Bool
  SrcAddr : Address
  DstAddr : Address
  Amount : Nat
  IHRFee : Nat
  FwdFee : Nat
  CreatedLT : Nat
  CreatedAt : Nat
  Body : Cell

/-- Inbound message of a transaction: its `MsgType` and, for an internal
message, what `AsInternal` returns. -/
inductive Message where
  | internal (m : InternalMessage)
  | externalIn
  | externalOut

/-- Outcome recorded in a bounce phase. -/
inductive BouncePhase where
  | negFunds
  | noFunds
  | ok
  deriving DecidableEq, Repr

/-- Description of a transaction: ordinary (with an optional bounce phase) or
any other kind. -/
inductive TransactionDescription where
  | ordinary (bouncePhase : Option BouncePhase)
  | other
  deriving DecidableEq, Repr

/-- The fields of `tlb.Transaction` the loop reads: `IO.In` and `Description`. -/
structure Transaction where
  In : Option Message
  Description : TransactionDescription

/-- Body of a native record (`Ton` of `ton.go`). -/
structure Ton where
  Message : List Nat
  deriving DecidableEq, Repr

/-- Native record (`RootTON` of `ton.go`). -/
structure RootTON where
  OpCode : Nat
  IHRDisabled : Bool
  Bounce : Bool
  Bounced : Bool
  SrcAddr : String
  DstAddr : String
  Amount : String
  IHRFee : String
  FwdFee : String
  CreatedLT : Nat
  CreatedAt : Nat
  Body : Ton
  deriving DecidableEq, Repr

/-- Body of a fungible-transfer record (`Jetton` of `jetton.go`). -/
structure Jetton where
  OpCode : Nat
  QueryID : Nat
  Amount : String
  Sender : String
  Message : List Nat
  deriving DecidableEq, Repr

/-- Fungible-transfer record (`RootJetton` of `jetton.go`). -/
structure RootJetton where
  IHRDisabled : Bool
  Bounce : Bool
  Bounced : Bool
  SrcAddr : String
  DstAddr : String
  Amount : String
  IHRFee : String
  FwdFee : String
  CreatedLT : Nat
  CreatedAt : Nat
  Body : Jetton
  deriving DecidableEq, Repr

/-- Body of a non-fungible-transfer record (`NFT` of `nft.go`). -/
structure NFT where
  OpCode : Nat
  Initialized : Bool
  Index : String
  Address : String
  OwnerAddress : String
  CollectionAddress : String
  Meta : String
  Message : List Nat
  deriving DecidableEq, Repr

/-- Non-fungible-transfer record (`RootNFT` of `nft.go`). -/
structure RootNFT where
  IHRDisabled : Bool
  Bounce : Bool
  Bounced : Bool
  SrcAddr : String
  DstAddr : String
  Amount : String
  IHRFee : String
  FwdFee : String
  CreatedLT : Nat
  CreatedAt : Nat
  Body : NFT
  deriving DecidableEq, Repr

/-! ## External collaborators -/

/-- Content description returned by a collection: off-chain (a locator URI),
on-chain, or semi-chain (both). -/
inductive ContentAny where
  | offchain (uri : String)
  | onchain
  | semichain (uri : String)
  deriving DecidableEq, Repr

/-- Item state returned by `GetNFTData`. -/
structure NFTData where
  Initialized : Bool
  Index : Nat
  CollectionAddress : Address
  OwnerAddress : Address
  Content : ContentAny
  deriving DecidableEq, Repr

/-- The external collaborators, as functions: the library's string forms of
addresses and coin amounts, its address parser, and the two ledger queries
(item state, collection content) as oracles. -/
structure Env where
  addrString : Address → String
  parseAddr : String → Option Address
  coinsString : Nat → String
  getNFTData : Address → Except String NFTData
  getNFTContent : Address → Nat → ContentAny → Except String ContentAny

/-- A ledger query issued by the non-fungible decoder. -/
inductive Query where
  | getNFTData (item : Address)
  | getNFTContent (collection : Address) (index : Nat) (content : ContentAny)
  deriving DecidableEq, Repr

/-! ## Decoders -/

/-- Errors the decoders return; the constructor names the `fmt.Errorf` site,
`query` is an error of a ledger query passed through unchanged. -/
inductive DecodeError where
  | nilMessage
  | loadQueryID (e : CellError)
  | loadAmount (e : CellError)
  | loadSender (e : CellError)
  | loadPayloadRef (e : CellError)
  | loadTextComment (e : CellError)
  | loadSumType (e : CellError)
  | query (e : String)
  deriving DecidableEq, Repr

/-- The block `sumType, err := payload.LoadUInt(32); if err == nil && sumType ==
0 { LoadStringSnake ... } else if err != nil { ... }` that `ton.go` (43-58),
`jetton.go` (83-93) and `nft.go` (78-91) hold word for word: the text it
leaves in `text`, or the error it returns. -/
def loadComment (payload : Slice) : Except DecodeError (List Nat) :=
  match payload.LoadUInt 32 with
  | .ok (sumType, payload1) =>
    if sumType = 0 then
      match payload1.LoadStringSnake with
      | .error e => .error (.loadTextComment e)
      | .ok value => .ok value
    else .ok []
  | .error e => .error (.loadSumType e)

/-- `Sub.TonBody` of `ton.go`. -/
def TonBody (env : Env) (ti : InternalMessage) : Except DecodeError RootTON :=
  let payload := ti.Body.BeginParse
  match loadComment payload with
  | .error e => .error e
  | .ok text =>
    .ok {
      OpCode := 0x00000000
      IHRDisabled := ti.IHRDisabled
      Bounce := ti.Bounce
      Bounced := ti.Bounced
      SrcAddr := env.addrString ti.SrcAddr
      DstAddr := env.addrString ti.DstAddr
      Amount := env.coinsString ti.Amount
      IHRFee := env.coinsString ti.IHRFee
      FwdFee := env.coinsString ti.FwdFee
      CreatedLT := ti.CreatedLT
      CreatedAt := ti.CreatedAt
      Body := { Message := text } }

/-- The opcode read of `jetton.go` 48-52 and `tonsub.go` 134-137: the leading
32 bits, or zero (cursor unchanged) when the read fails. -/
def loadOpCode (slice : Slice) : Nat × Slice :=
  match slice.LoadUInt 32 with
  | .ok (opCode, slice1) => (opCode, slice1)
  | .error _ => (0x00000000, slice)

/-- Comment extraction of `jetton.go` 72-94: the optional child reference,
then the comment block on it. -/
def jettonComment (slice : Slice) : Except DecodeError (List Nat) :=
  match slice.LoadMaybeRef with
  | .error e => .error (.loadPayloadRef e)
  | .ok (Option.none, _) => .ok []
  | .ok (some payload, _) => loadComment payload

/-- The structurally required fields of `jetton.go` 44-70: operation code,
query identifier, amount and sender, with the cursor left after them. -/
def jettonFields (slice : Slice) :
    Except DecodeError (Nat × Nat × Nat × Address × Slice) :=
  let (opCode, slice) := loadOpCode slice
  match slice.LoadUInt 64 with
  | .error e => .error (.loadQueryID e)
  | .ok (queryID, slice) =>
    match slice.LoadBigCoins with
    | .error e => .error (.loadAmount e)
    | .ok (amount, slice) =>
      match slice.LoadAddr with
      | .error e => .error (.loadSender e)
      | .ok (sender, slice) => .ok (opCode, queryID, amount, sender, slice)

/-- `Sub.JettonBody` of `jetton.go`; `none` is the nil message. -/
def JettonBody (env : Env) (ti : Option InternalMessage) : Except DecodeError RootJetton :=
  match ti with
  | Option.none => .error .nilMessage
  | some ti =>
    match jettonFields ti.Body.BeginParse with
    | .error e => .error e
    | .ok (opCode, queryID, amount, sender, slice) =>
      match jettonComment slice with
      | .error e => .error e
      | .ok text =>
        .ok {
          IHRDisabled := ti.IHRDisabled
          Bounce := ti.Bounce
          Bounced := ti.Bounced
          SrcAddr := env.addrString ti.SrcAddr
          DstAddr := env.addrString ti.DstAddr
          Amount := env.coinsString ti.Amount
          IHRFee := env.coinsString ti.IHRFee
          FwdFee := env.coinsString ti.FwdFee
          CreatedLT := ti.CreatedLT
          CreatedAt := ti.CreatedAt
          Body := {
            OpCode := opCode
            QueryID := queryID
            Amount := toString amount
            Sender := env.addrString sender
            Message := text } }

/-- Result of a decoder that may also panic. -/
inductive Outcome (α : Type) where
  | ok (v : α)
  | error (e : DecodeError)
  | panic

/-- Metadata resolution of `nft.go` 44-68: the queries issued after the item
state is known, and the locator or the error of the collection query. -/
def resolveMeta (env : Env) (nftData : NFTData) : List Query × Except String String :=
  if nftData.CollectionAddress.isNone then ([], .ok "")
  else
    let q := Query.getNFTContent nftData.CollectionAddress nftData.Index nftData.Content
    match env.getNFTContent nftData.CollectionAddress nftData.Index nftData.Content with
    | .error e => ([q], .error e)
    | .ok (.offchain uri) => ([q], .ok uri)
    | .ok _ => ([q], .ok "")

/-- `Sub.NFTBody` of `nft.go`: the ledger queries it issues, in order, and its
result.  `MustParseAddr` panics when the string form of the source address
does not parse. -/
def NFTBody (env : Env) (ti : InternalMessage) : List Query × Outcome RootNFT :=
  match env.parseAddr (env.addrString ti.SrcAddr) with
  | Option.none => ([], .panic)
  | some nftAddr =>
    match env.getNFTData nftAddr with
    | .error e => ([.getNFTData nftAddr], .error (.query e))
    | .ok nftData =>
      match resolveMeta env nftData with
      | (qs, .error e) => (.getNFTData nftAddr :: qs, .error (.query e))
      | (qs, .ok metaURI) =>
        let payload := ti.Body.BeginParse
        match loadComment payload with
        | .error e => (.getNFTData nftAddr :: qs, .error e)
        | .ok text =>
          (.getNFTData nftAddr :: qs, .ok {
            IHRDisabled := ti.IHRDisabled
            Bounce := ti.Bounce
            Bounced := ti.Bounced
            SrcAddr := env.addrString ti.SrcAddr
            DstAddr := env.addrString ti.DstAddr
            Amount := env.coinsString ti.Amount
            IHRFee := env.coinsString ti.IHRFee
            FwdFee := env.coinsString ti.FwdFee
            CreatedLT := ti.CreatedLT
            CreatedAt := ti.CreatedAt
            Body := {
              OpCode := 0x7362d09c
              Initialized := nftData.Initialized
              Index := toString nftData.Index
              Address := env.addrString nftAddr
              OwnerAddress := env.addrString nftData.OwnerAddress
              CollectionAddress := env.addrString nftData.CollectionAddress
              Meta := metaURI
              Message := text } })

/-! ## The subscription loop -/

/-- A call the loop makes: one of the three decoders on a message, or one of
the three handler slots on a record. -/
inductive Call where
  | NFTBody (ti : InternalMessage)
  | JettonBody (ti : InternalMessage)
  | TonBody (ti : InternalMessage)
  | clbNFT (body : RootNFT)
  | clbJetton (body : RootJetton)
  | clbTon (body : RootTON)

/-- Transaction categories. -/
inductive Category where
  | nft
  | jetton
  | ton
  deriving DecidableEq, Repr

/-- Category a call belongs to. -/
def Call.category : Call → Category
  | .NFTBody _ => .nft
  | .clbNFT _ => .nft
  | .JettonBody _ => .jetton
  | .clbJetton _ => .jetton
  | .TonBody _ => .ton
  | .clbTon _ => .ton

/-- Whether a call is a handler invocation. -/
def Call.isHandler : Call → Bool
  | .clbNFT _ => true
  | .clbJetton _ => true
  | .clbTon _ => true
  | _ => false

/-- One iteration of the `for tx := range channel` loop of `Sub.subscribe`
(`tonsub.go` 118-164): the calls made for `tx`, in order.  `BeginParse` never
yields nil, so the test `bodyCell != nil` always passes.  A panic inside a
decoder is recovered by the deferred function, which re-enters the loop on the
same channel: the transaction yields no handler call. -/
def processTx (env : Env) (tx : Transaction) : List Call :=
  match tx.In with
  | some (.internal ti) =>
    match tx.Description with
    | .ordinary (some .ok) => []
    | _ =>
      let bodyCell := ti.Body.BeginParse
      let opCode := (loadOpCode bodyCell).1
      if opCode = 0x05138d91 then
        match (NFTBody env ti).2 with
        | .ok body => [.NFTBody ti, .clbNFT body]
        | _ => [.NFTBody ti]
      else if opCode = 0x7362d09c then
        match JettonBody env (some ti) with
        | .ok body => [.JettonBody ti, .clbJetton body]
        | .error _ => [.JettonBody ti]
      else if opCode = 0x00000000 then
        match TonBody env ti with
        | .ok body => [.TonBody ti, .clbTon body]
        | .error _ => [.TonBody ti]
      else []
  | _ => []

/-- `Sub.subscribe`: the calls made while the feed `channel` is consumed. -/
def subscribe (env : Env) : List Transaction → List Call
  | [] => []
  | tx :: channel => processTx env tx ++ subscribe env channel

/-! ## Encodings and sample inputs used to state the properties -/

/-- The operation code a body starts with: the big-endian value of its first
32 bits, `none` when the body has fewer than 32 bits. -/
def leadingCode (body : Cell) : Option Nat :=
  if body.bits.length < 32 then Option.none else some (bitsToNat (body.bits.take 32))

/-- The variable-length coin encoding of `a` (the builder's `StoreBigCoins`):
the byte count of `a` on 4 bits, then `a` on that many bytes. -/
def storeBigCoins (a : Nat) : List Bool :=
  natToBits 4 ((Nat.size a + 7) / 8) ++ natToBits (8 * ((Nat.size a + 7) / 8)) a

/-- The wire encoding of an address (the builder's `StoreAddr`) for the absent
and the standard shape: tag `00`, or tag `10`, a clear anycast bit, the
workchain on 8 bits and the 32-byte account id. -/
def storeAddr : Address → List Bool
  | .std workchain data =>
    [true, false, false] ++ natToBits 8 (workchain % 256).toNat ++ bytesToBits data
  | _ => [false, false]

/-- Addresses `storeAddr` encodes: the absent address, and a standard address
with a workchain of 8 signed bits and a 32-byte account id. -/
def Address.valid : Address → Prop
  | .none => True
  | .std workchain data =>
    -128 ≤ workchain ∧ workchain < 128 ∧ data.length = 32 ∧ ∀ b ∈ data, b < 256
  | _ => False

/-- Whether a transaction passes the filter of the loop: an inbound internal
message, and not an ordinary description with a successful bounce phase. -/
abbrev passes (tx : Transaction) (ti : InternalMessage) : Prop :=
  tx.In = some (.internal ti) ∧ tx.Description ≠ .ordinary (some .ok)

/-- The handler calls among the calls of the loop. -/
def handlerCalls (calls : List Call) : List Call :=
  calls.filter Call.isHandler

/-- Sample account id: 32 bytes. -/
def sampleId (b : Nat) : List Nat :=
  List.replicate 32 b

/-- Sample item address. -/
def itemAddr : Address := .std 0 (sampleId 1)

/-- Sample collection address. -/
def collectionAddr : Address := .std 0 (sampleId 2)

/-- Sample owner address. -/
def ownerAddr : Address := .std 0 (sampleId 3)

/-- Sample observed address. -/
def treasuryAddr : Address := .std 0 (sampleId 4)

/-- Sample string form of addresses: a name for each sample address. -/
def sampleAddrString (a : Address) : String :=
  if a = itemAddr then "item"
  else if a = collectionAddr then "collection"
  else if a = ownerAddr then "owner"
  else if a = treasuryAddr then "treasury"
  else if a = .none then "NONE"
  else "other"

/-- Sample address parser: the inverse of `sampleAddrString` on the named
sample addresses, a failure on any other string. -/
def sampleParseAddr (s : String) : Option Address :=
  if s = "item" then some itemAddr
  else if s = "collection" then some collectionAddr
  else if s = "owner" then some ownerAddr
  else if s = "treasury" then some treasuryAddr
  else Option.none

/-- Sample collaborators: the item at `itemAddr` belongs to `collectionAddr`,
whose content is off-chain. -/
def sampleEnv : Env where
  addrString := sampleAddrString
  parseAddr := sampleParseAddr
  coinsString := fun n => toString n
  getNFTData := fun a =>
    if a = itemAddr then
      .ok { Initialized := true, Index := 5, CollectionAddress := collectionAddr,
            OwnerAddress := ownerAddr, Content := .onchain }
    else .error "no such item"
  getNFTContent := fun c _ _ =>
    if c = collectionAddr then .ok (.offchain "https://example.org/5.json")
    else .error "no such collection"

/-- Sample collaborators whose item-state query always fails. -/
def failingEnv : Env :=
  { sampleEnv with getNFTData := fun _ => .error "timeout" }

/-- Sample internal message with the given source address and body. -/
def sampleMsg (src : Address) (body : Cell) : InternalMessage where
  IHRDisabled := true
  Bounce := false
  Bounced := false
  SrcAddr := src
  DstAddr := treasuryAddr
  Amount := 1000000000
  IHRFee := 0
  FwdFee := 266669
  CreatedLT := 41000000
  CreatedAt := 1700000000
  Body := body

/-- Sample transaction carrying an inbound internal message, no bounce phase. -/
def sampleTx (ti : InternalMessage) : Transaction where
  In := some (.internal ti)
  Description := .ordinary Option.none

/-- The bytes of the text "hello". -/
def hello : List Nat := [104, 101, 108, 108, 111]

/-- Body of scenario A: the 32-bit zero operation code and one child holding
a 32-bit zero tag followed by the bytes of `t`. -/
def scenarioA (t : List Nat) : Cell :=
  .mk (natToBits 32 0) [.mk (natToBits 32 0 ++ bytesToBits t) []]

/-- Body of a native transfer with an inline comment: the 32-bit zero
operation code followed by the bytes of `t`, no child. -/
def inlineComment (t : List Nat) : Cell :=
  .mk (natToBits 32 0 ++ bytesToBits t) []

/-- Body of scenario B: the fungible-transfer code, query id, amount, sender,
a clear optional-reference flag, then `rest`; children `refs`. -/
def scenarioB (q a : Nat) (s : Address) (rest : List Bool) (refs : List Cell) : Cell :=
  .mk (natToBits 32 0x7362d09c ++ natToBits 64 q ++ storeBigCoins a ++ storeAddr s
    ++ [false] ++ rest) refs

/-- A fungible-transfer body whose optional-reference flag is set: the
required fields of scenario B, a set flag, and the children `refs`. -/
def jettonWithRef (q a : Nat) (s : Address) (refs : List Cell) : Cell :=
  .mk (natToBits 32 0x7362d09c ++ natToBits 64 q ++ storeBigCoins a ++ storeAddr s
    ++ [true]) refs

/-- Body of an NFT transfer notification: the code `0x05138d91` alone. -/
def nftNotification : Cell :=
  .mk (natToBits 32 0x05138d91) []

/-- The empty body: no bits, no child. -/
def emptyBody : Cell :=
  .mk [] []

/-- A structurally required field of a fungible-transfer body cannot be read:
after the operation code, the read of the 64-bit query identifier, or then of
the amount, or then of the sender address, fails. -/
def requiredFieldUnreadable (body : Cell) : Prop :=
  (∃ e, (loadOpCode body.BeginParse).2.LoadUInt 64 = .error e) ∨
  (∃ q s2, (loadOpCode body.BeginParse).2.LoadUInt 64 = .ok (q, s2) ∧
    ((∃ e, s2.LoadBigCoins = .error e) ∨
     (∃ a s3, s2.LoadBigCoins = .ok (a, s3) ∧ ∃ e, s3.LoadAddr = .error e)))

/-- A fungible-transfer body cut after the amount: code, query id 7, amount
1000000000, and no sender address. -/
def missingSender : Cell :=
  .mk (natToBits 32 0x7362d09c ++ natToBits 64 7 ++ natToBits 4 4 ++ natToBits 32 1000000000) []

/-- A comment child: a 32-bit zero tag followed by the bytes of `t`. -/
def commentChild (t : List Nat) : Cell :=
  .mk (natToBits 32 0 ++ bytesToBits t) []

/-- The law of the address library that parsing the string form of an address
gives that address back. -/
def ParsePrint (env : Env) : Prop :=
  ∀ a b, env.parseAddr (env.addrString a) = some b → b = a

/-! ## The handler registry and the session -/

/-- `Sub` of `tonsub.go`.  The context and the block are opaque handles; `Api`
stands for the query client and the library it comes with.  A handler is a
Go function called for its effect: here a transformer of the application
state `σ`. -/
structure Sub (σ : Type) where
  Context : Nat
  Block : Nat
  Api : Env
  lt : Nat
  clbJetton : RootJetton → σ → σ
  clbTon : RootTON → σ → σ
  clbNFT : RootNFT → σ → σ

/-- `Sub.OnJetton` of `tonsub.go`. -/
def Sub.OnJetton {σ : Type} (s : Sub σ) (clb : RootJetton → σ → σ) : Sub σ :=
  { s with clbJetton := clb }

/-- `Sub.OnTON` of `tonsub.go`. -/
def Sub.OnTON {σ : Type} (s : Sub σ) (clb : RootTON → σ → σ) : Sub σ :=
  { s with clbTon := clb }

/-- `Sub.OnNFT` of `tonsub.go`. -/
def Sub.OnNFT {σ : Type} (s : Sub σ) (clb : RootNFT → σ → σ) : Sub σ :=
  { s with clbNFT := clb }

/-- What the external calls of `New` return, in the order `New` makes them:
the sticky context, the network configuration, the connection attempt, the
query client, the first masterchain block, the parsed treasury address (`none`
when `MustParseAddr` panics), the account's last logical time and the second
masterchain block. -/
structure Session where
  ctx : Nat
  cfg : Except String Nat
  connect : Except String Unit
  api : Env
  master : Except String Nat
  treasury : Option Address
  lastTxLT : Except String Nat
  block : Except String Nat

/-- Result of `New`: a subscription, an error, or a panic. -/
inductive Started (α : Type) where
  | ok (s : α)
  | error (e : String)
  | panic

/-- `New` of `tonsub.go`, on the results of its external calls; the two
workers it starts are not part of the returned value. -/
def New (σ : Type) (session : Session) : Started (Sub σ) :=
  match session.cfg with
  | .error e => .error e
  | .ok _ =>
    match session.connect with
    | .error e => .error e
    | .ok _ =>
      match session.master with
      | .error e => .error e
      | .ok _ =>
        match session.treasury with
        | Option.none => .panic
        | some _ =>
          match session.lastTxLT with
          | .error e => .error e
          | .ok lastTxLT =>
            match session.block with
            | .error e => .error e
            | .ok block =>
              .ok {
                Context := session.ctx
                Block := block
                Api := session.api
                lt := lastTxLT
                clbJetton := fun _ st => st
                clbTon := fun _ st => st
                clbNFT := fun _ st => st }

/-- Effect of one call of the loop on the application state: a handler call
runs the function held in the slot, a decoder call leaves the state alone. -/
def Sub.invoke {σ : Type} (s : Sub σ) : Call → σ → σ
  | .clbNFT body, st => s.clbNFT body st
  | .clbJetton body, st => s.clbJetton body st
  | .clbTon body, st => s.clbTon body st
  | _, st => st

/-- The application state after `Sub.subscribe` has consumed the feed, the
calls being made in order with the handlers held by `s`. -/
def Sub.run {σ : Type} (s : Sub σ) (channel : List Transaction) (st : σ) : σ :=
  (subscribe s.Api channel).foldl (fun acc c => s.invoke c acc) st

/-! ## Further notions used to state the properties -/

/-- Continuation cells of a chained string: one cell per byte string, each the
single child of the one before. -/
def snakeCells : List (List Nat) → List Cell
  | [] => []
  | b :: bs => [.mk (bytesToBits b) (snakeCells bs)]

/-- A comment child continued through linked cells: a 32-bit zero tag and the
bytes of `b0`, then the continuation cells holding `bs`. -/
def chainedComment (b0 : List Nat) (bs : List (List Nat)) : Cell :=
  .mk (natToBits 32 0 ++ bytesToBits b0) (snakeCells bs)

/-- The decode of a transaction fails: it passes the filter and the decoder
the loop selects for its body returns no record. -/
def decodeFails (env : Env) (tx : Transaction) : Prop :=
  ∃ ti, passes tx ti ∧
    ((leadingCode ti.Body = some 0x05138d91 ∧ ∀ body, (NFTBody env ti).2 ≠ .ok body) ∨
     (leadingCode ti.Body = some 0x7362d09c ∧ ∃ e, JettonBody env (some ti) = .error e) ∨
     ((leadingCode ti.Body = some 0x00000000 ∨ leadingCode ti.Body = Option.none) ∧
        ∃ e, TonBody env ti = .error e))

/-- The envelope common to the three record kinds. -/
structure Envelope where
  IHRDisabled : Bool
  Bounce : Bool
  Bounced : Bool
  SrcAddr : String
  DstAddr : String
  Amount : String
  IHRFee : String
  FwdFee : String
  CreatedLT : Nat
  CreatedAt : Nat
  deriving DecidableEq, Repr

/-- The envelope of an internal message: flags and times as they are, the
addresses, the amount and the fees in their string forms. -/
def envelopeOf (env : Env) (m : InternalMessage) : Envelope where
  IHRDisabled := m.IHRDisabled
  Bounce := m.Bounce
  Bounced := m.Bounced
  SrcAddr := env.addrString m.SrcAddr
  DstAddr := env.addrString m.DstAddr
  Amount := env.coinsString m.Amount
  IHRFee := env.coinsString m.IHRFee
  FwdFee := env.coinsString m.FwdFee
  CreatedLT := m.CreatedLT
  CreatedAt := m.CreatedAt

/-- Envelope fields of a native record. -/
def RootTON.envelope (r : RootTON) : Envelope :=
  { IHRDisabled := r.IHRDisabled, Bounce := r.Bounce, Bounced := r.Bounced,
    SrcAddr := r.SrcAddr, DstAddr := r.DstAddr, Amount := r.Amount, IHRFee := r.IHRFee,
    FwdFee := r.FwdFee, CreatedLT := r.CreatedLT, CreatedAt := r.CreatedAt }

/-- Envelope fields of a fungible-transfer record. -/
def RootJetton.envelope (r : RootJetton) : Envelope :=
  { IHRDisabled := r.IHRDisabled, Bounce := r.Bounce, Bounced := r.Bounced,
    SrcAddr := r.SrcAddr, DstAddr := r.DstAddr, Amount := r.Amount, IHRFee := r.IHRFee,
    FwdFee := r.FwdFee, CreatedLT := r.CreatedLT, CreatedAt := r.CreatedAt }

/-- Envelope fields of a non-fungible-transfer record. -/
def RootNFT.envelope (r : RootNFT) : Envelope :=
  { IHRDisabled := r.IHRDisabled, Bounce := r.Bounce, Bounced := r.Bounced,
    SrcAddr := r.SrcAddr, DstAddr := r.DstAddr, Amount := r.Amount, IHRFee := r.IHRFee,
    FwdFee := r.FwdFee, CreatedLT := r.CreatedLT, CreatedAt := r.CreatedAt }

/-- Sample results of the external calls of `New`: all succeed. -/
def sampleSession : Session where
  ctx := 1
  cfg := .ok 0
  connect := .ok ()
  api := sampleEnv
  master := .ok 100
  treasury := some treasuryAddr
  lastTxLT := .ok 41000000
  block := .ok 101

/-- An NFT notification that carries a comment child and trailing text. -/
def nftWithComment : Cell :=
  .mk (natToBits 32 0x05138d91 ++ bytesToBits hello) [commentChild hello]

/-! ## Bit and byte codecs -/

theorem bitsToNat_snoc (l : List Bool) (b : Bool) :
    bitsToNat (l ++ [b]) = 2 * bitsToNat l + (if b then 1 else 0) := by
  simp [bitsToNat, List.foldl_append]

theorem natToBits_length (w n : Nat) : (natToBits w n).length = w := by
  induction w generalizing n with
  | zero => rfl
  | succ w ih => simp [natToBits, ih]

theorem bitsToNat_natToBits (w n : Nat) (h : n < 2 ^ w) : bitsToNat (natToBits w n) = n := by
  induction w generalizing n with
  | zero =>
    have : n = 0 := by simpa using h
    subst this; rfl
  | succ w ih =>
    have h2 : n / 2 < 2 ^ w := by
      rw [Nat.div_lt_iff_lt_mul (by decide)]
      simpa [Nat.pow_succ] using h
    rw [natToBits, bitsToNat_snoc, ih _ h2]
    rcases Nat.mod_two_eq_zero_or_one n with h0 | h1
    · simp [h0]; omega
    · simp [h1]; omega

theorem bitsToNat_lt (l : List Bool) : bitsToNat l < 2 ^ l.length := by
  induction l using List.reverseRecOn with
  | nil => simp [bitsToNat]
  | append_singleton l b ih =>
    rw [bitsToNat_snoc, List.length_append, List.length_singleton, Nat.pow_succ]
    split <;> omega

theorem bitsToBytes_cons (b : Nat) (hb : b < 256) (rest : List Bool) :
    bitsToBytes (natToBits 8 b ++ rest) = b :: bitsToBytes rest := by
  have hl : (natToBits 8 b).length = 8 := natToBits_length 8 b
  have h1 : ((natToBits 8 b ++ rest).length + 7) / 8 = (rest.length + 7) / 8 + 1 := by
    rw [List.length_append, hl]; omega
  unfold bitsToBytes
  rw [h1, bytesAux]
  have h2 : List.take 8 (natToBits 8 b ++ rest ++ List.replicate 7 false) = natToBits 8 b := by
    rw [List.append_assoc, List.take_append_of_le_length (by omega)]
    exact List.take_of_length_le (by omega)
  have h3 : List.drop 8 (natToBits 8 b ++ rest) = rest := by
    rw [List.drop_append_of_le_length (by omega), List.drop_of_length_le (by omega)]
    rfl
  rw [h2, h3, bitsToNat_natToBits 8 b (by simpa using hb)]

theorem bitsToBytes_bytesToBits (t : List Nat) (ht : ∀ b ∈ t, b < 256) :
    bitsToBytes (bytesToBits t) = t := by
  induction t with
  | nil => rfl
  | cons b t ih =>
    have : bytesToBits (b :: t) = natToBits 8 b ++ bytesToBits t := by
      simp [bytesToBits]
    rw [this, bitsToBytes_cons b (ht b (by simp)), ih (fun x hx => ht x (by simp [hx]))]

theorem bytesToBits_append (a b : List Nat) :
    bytesToBits (a ++ b) = bytesToBits a ++ bytesToBits b := by
  simp [bytesToBits]

theorem bytesToBits_length (t : List Nat) : (bytesToBits t).length = 8 * t.length := by
  induction t with
  | nil => rfl
  | cons b t ih =>
    have : bytesToBits (b :: t) = natToBits 8 b ++ bytesToBits t := by
      simp [bytesToBits]
    rw [this, List.length_append, natToBits_length, ih, List.length_cons]; omega

/-! ## The loop and the decoders -/

theorem loadOpCode_fst (body : Cell) :
    (loadOpCode body.BeginParse).1 =
      match leadingCode body with
      | some v => v
      | Option.none => 0 := by
  unfold loadOpCode Slice.LoadUInt leadingCode Cell.BeginParse
  by_cases h : body.bits.length < 32
  · simp [h]
  · have hlt : bitsToNat (List.take 32 body.bits) < 2 ^ 64 := by
      have := bitsToNat_lt (List.take 32 body.bits)
      have hl : (List.take 32 body.bits).length ≤ 32 := by simp
      calc bitsToNat (List.take 32 body.bits) < 2 ^ (List.take 32 body.bits).length := this
        _ ≤ 2 ^ 32 := Nat.pow_le_pow_right (by decide) hl
        _ ≤ 2 ^ 64 := by decide
    simp [h]
    omega

theorem processTx_passes (env : Env) (tx : Transaction) (ti : InternalMessage)
    (h : passes tx ti) :
    processTx env tx =
      if (loadOpCode ti.Body.BeginParse).1 = 0x05138d91 then
        match (NFTBody env ti).2 with
        | .ok body => [.NFTBody ti, .clbNFT body]
        | _ => [.NFTBody ti]
      else if (loadOpCode ti.Body.BeginParse).1 = 0x7362d09c then
        match JettonBody env (some ti) with
        | .ok body => [.JettonBody ti, .clbJetton body]
        | .error _ => [.JettonBody ti]
      else if (loadOpCode ti.Body.BeginParse).1 = 0x00000000 then
        match TonBody env ti with
        | .ok body => [.TonBody ti, .clbTon body]
        | .error _ => [.TonBody ti]
      else [] := by
  obtain ⟨hin, hd⟩ := h
  unfold processTx
  rw [hin]
  cases hdesc : tx.Description with
  | other => rfl
  | ordinary bp =>
    cases bp with
    | none => rfl
    | some p =>
      cases p with
      | ok => exact absurd hdesc hd
      | negFunds => rfl
      | noFunds => rfl


/-- Category the loop selects for a body, by its leading operation code. -/
theorem processTx_head (env : Env) (tx : Transaction) (ti : InternalMessage)
    (h : passes tx ti) :
    (processTx env tx).head?.map Call.category =
      match leadingCode ti.Body with
      | some v =>
        if v = 0x05138d91 then some Category.nft
        else if v = 0x7362d09c then some Category.jetton
        else if v = 0 then some Category.ton
        else Option.none
      | Option.none => some Category.ton := by
  rw [processTx_passes env tx ti h, loadOpCode_fst]
  cases hl : leadingCode ti.Body with
  | none =>
    simp only [Nat.reduceEqDiff, if_false, if_true]
    cases TonBody env ti <;> rfl
  | some v =>
    simp only
    by_cases h1 : v = 0x05138d91
    · simp only [h1, if_true]
      cases (NFTBody env ti).2 <;> rfl
    · by_cases h2 : v = 0x7362d09c
      · simp only [h2, Nat.reduceEqDiff, if_false, if_true]
        cases JettonBody env (some ti) <;> rfl
      · by_cases h3 : v = 0
        · simp only [h3, Nat.reduceEqDiff, if_false, if_true]
          cases TonBody env ti <;> rfl
        · simp [h1, h2, h3]

/-- C1. Classification by the loop is a total function of the body's leading 32
bits: for a transaction that passes the filter, the code `0x05138d91` leads to
the NFT decoder and, on success, the NFT handler, and to nothing else;
`0x7362d09c` likewise to the Jetton decoder and handler; `0x00000000` or a
body of fewer than 32 bits to the TON decoder and handler; any other code to
no call at all; and two transactions with the same body have the same
category selected, whatever the rest of the transaction and the collaborators. -/
theorem classification_total (env : Env) (tx : Transaction) (ti : InternalMessage)
    (h : passes tx ti) :
    (leadingCode ti.Body = some 0x05138d91 →
      processTx env tx =
        match (NFTBody env ti).2 with
        | .ok body => [.NFTBody ti, .clbNFT body]
        | _ => [.NFTBody ti]) ∧
    (leadingCode ti.Body = some 0x7362d09c →
      processTx env tx =
        match JettonBody env (some ti) with
        | .ok body => [.JettonBody ti, .clbJetton body]
        | .error _ => [.JettonBody ti]) ∧
    (leadingCode ti.Body = some 0x00000000 ∨ leadingCode ti.Body = Option.none →
      processTx env tx =
        match TonBody env ti with
        | .ok body => [.TonBody ti, .clbTon body]
        | .error _ => [.TonBody ti]) ∧
    (∀ v, leadingCode ti.Body = some v → v ≠ 0x05138d91 → v ≠ 0x7362d09c →
      v ≠ 0x00000000 → processTx env tx = []) ∧
    (∀ env2 tx2 ti2, passes tx2 ti2 → ti2.Body = ti.Body →
      (processTx env2 tx2).head?.map Call.category =
        (processTx env tx).head?.map Call.category) := by
  refine ⟨?_, ?_, ?_, ?_, ?_⟩
  · intro hl
    rw [processTx_passes env tx ti h, loadOpCode_fst, hl]
    simp
  · intro hl
    rw [processTx_passes env tx ti h, loadOpCode_fst, hl]
    simp
  · intro hl
    rw [processTx_passes env tx ti h, loadOpCode_fst]
    rcases hl with hl | hl <;> rw [hl] <;> simp
  · intro v hl h1 h2 h3
    rw [processTx_passes env tx ti h, loadOpCode_fst, hl]
    simp [h1, h2, h3]
  · intro env2 tx2 ti2 h2 hb
    rw [processTx_head env2 tx2 ti2 h2, processTx_head env tx ti h, hb]


theorem loadUInt_short (s : Slice) (sz : Nat) (hsz : sz ≤ 256) (h : s.bits.length < sz) :
    s.LoadUInt sz = .error .notEnoughData := by
  unfold Slice.LoadUInt
  simp [Nat.not_lt.mpr hsz, h]

theorem loadUInt_natToBits (w n : Nat) (hw : w ≤ 64) (hn : n < 2 ^ w) (rest : List Bool)
    (refs : List Cell) :
    Slice.LoadUInt ⟨natToBits w n ++ rest, refs⟩ w = .ok (n, ⟨rest, refs⟩) := by
  have hl : (natToBits w n).length = w := natToBits_length w n
  have h64 : n < 2 ^ 64 := lt_of_lt_of_le hn (Nat.pow_le_pow_right (by decide) hw)
  have ht : List.take w (natToBits w n ++ rest) = natToBits w n := by
    rw [List.take_append_of_le_length (by omega)]
    exact List.take_of_length_le (by omega)
  have hd : List.drop w (natToBits w n ++ rest) = rest := by
    rw [List.drop_append_of_le_length (by omega), List.drop_of_length_le (by omega)]
    rfl
  unfold Slice.LoadUInt
  have h1 : ¬ 256 < w := by omega
  have h2 : ¬ (natToBits w n ++ rest).length < w := by
    rw [List.length_append, hl]; omega
  simp only [h1, h2, if_false, ht, hd, bitsToNat_natToBits w n hn, Nat.mod_eq_of_lt h64]

theorem loadComment_short (p : Slice) (h : p.bits.length < 32) :
    loadComment p = .error (.loadSumType .notEnoughData) := by
  unfold loadComment
  rw [loadUInt_short p 32 (by decide) h]

theorem loadComment_zero (rest : List Bool) (refs : List Cell) :
    loadComment ⟨natToBits 32 0 ++ rest, refs⟩ =
      match Slice.LoadStringSnake ⟨rest, refs⟩ with
      | .error e => .error (.loadTextComment e)
      | .ok value => .ok value := by
  unfold loadComment
  rw [loadUInt_natToBits 32 0 (by decide) (by decide)]
  simp

theorem loadComment_nonzero (tag : Nat) (htag : tag < 2 ^ 32) (h0 : tag ≠ 0)
    (rest : List Bool) (refs : List Cell) :
    loadComment ⟨natToBits 32 tag ++ rest, refs⟩ = .ok [] := by
  unfold loadComment
  rw [loadUInt_natToBits 32 tag (by decide) htag]
  simp [h0]

theorem bitsToBytes_tag_text (t : List Nat) (ht : ∀ b ∈ t, b < 256) :
    bitsToBytes (natToBits 32 0 ++ bytesToBits t) = [0, 0, 0, 0] ++ t := by
  have h0 : natToBits 32 0 = bytesToBits [0, 0, 0, 0] := by decide
  rw [h0, ← bytesToBits_append, bitsToBytes_bytesToBits]
  intro b hb
  rcases List.mem_append.mp hb with h | h
  · have : b = 0 := by simpa using h
    omega
  · exact ht b h

theorem TonBody_of_comment (env : Env) (ti : InternalMessage) (text : List Nat)
    (h : loadComment ti.Body.BeginParse = .ok text) :
    ∃ r, TonBody env ti = .ok r ∧ r.Body.Message = text ∧ r.OpCode = 0 := by
  unfold TonBody
  simp only []
  rw [h]
  exact ⟨_, rfl, rfl, rfl⟩

theorem TonBody_of_comment_error (env : Env) (ti : InternalMessage) (e : DecodeError)
    (h : loadComment ti.Body.BeginParse = .error e) :
    TonBody env ti = .error e := by
  unfold TonBody
  simp only []
  rw [h]

/-- C2. A body of fewer than 32 bits (the empty body among them) is classified
as a native transfer and then rejected by the native decoder: `TonBody`
returns the error of the sum-type read and the loop invokes no handler.  Only
the body that is exactly the 32-bit zero operation code, without a child,
yields the record with an empty comment and operation code zero, delivered
once to the TON handler. -/
theorem TonBody_short_body_rejected (env : Env) (tx : Transaction) (ti : InternalMessage)
    (h : passes tx ti) :
    (ti.Body.bits.length < 32 →
      TonBody env ti = .error (.loadSumType .notEnoughData) ∧
      processTx env tx = [.TonBody ti]) ∧
    (ti.Body = .mk (natToBits 32 0) [] →
      ∃ r, TonBody env ti = .ok r ∧ r.Body.Message = [] ∧ r.OpCode = 0 ∧
        processTx env tx = [.TonBody ti, .clbTon r]) := by
  constructor
  · intro hs
    have hT : TonBody env ti = .error (.loadSumType .notEnoughData) := by
      unfold TonBody
      simp only []
      rw [loadComment_short _ hs]
    have hl : leadingCode ti.Body = Option.none := by
      unfold leadingCode
      simp [hs]
    refine ⟨hT, ?_⟩
    rw [processTx_passes env tx ti h, loadOpCode_fst, hl, hT]
    simp
  · intro hb
    have hc : loadComment ti.Body.BeginParse = .ok [] := by
      rw [hb]
      have := loadComment_zero [] []
      simpa [Cell.BeginParse, Cell.bits, Cell.refs, Slice.LoadStringSnake, bitsToBytes,
        bytesAux] using this
    have hl : leadingCode ti.Body = some 0 := by
      rw [hb]; decide
    obtain ⟨r, hr, hm, ho⟩ := TonBody_of_comment env ti [] hc
    refine ⟨r, hr, hm, ho, ?_⟩
    rw [processTx_passes env tx ti h, loadOpCode_fst, hl, hr]
    simp


theorem snake_leaf (bits : List Bool) : (Cell.mk bits []).snake = .ok (bitsToBytes bits) := by
  rw [Cell.snake]

theorem TonBody_scenarioA (env : Env) (ti : InternalMessage) (t : List Nat)
    (ht : ∀ b ∈ t, b < 256) (hb : ti.Body = scenarioA t) :
    ∃ r, TonBody env ti = .ok r ∧ r.Body.Message = [0, 0, 0, 0] ++ t ∧ r.OpCode = 0 := by
  apply TonBody_of_comment
  rw [hb]
  have h := loadComment_zero [] [.mk (natToBits 32 0 ++ bytesToBits t) []]
  simp only [List.append_nil] at h
  simp only [scenarioA, Cell.BeginParse, Cell.bits, Cell.refs]
  rw [h]
  simp only [Slice.LoadStringSnake, snake_leaf, bitsToBytes_tag_text t ht]
  rfl

theorem TonBody_inline (env : Env) (ti : InternalMessage) (t : List Nat)
    (ht : ∀ b ∈ t, b < 256) (hb : ti.Body = inlineComment t) :
    ∃ r, TonBody env ti = .ok r ∧ r.Body.Message = t ∧ r.OpCode = 0 := by
  apply TonBody_of_comment
  rw [hb]
  simp only [inlineComment, Cell.BeginParse, Cell.bits, Cell.refs]
  rw [loadComment_zero]
  simp only [Slice.LoadStringSnake, bitsToBytes_bytesToBits t ht]

/-- C3, as stated, fails on the code: for the body of scenario A with the text
"hello", the native record's comment is the four zero bytes of the child's tag
followed by "hello", not "hello". -/
theorem scenarioA_hello_counterexample :
    ∃ r, TonBody sampleEnv (sampleMsg ownerAddr (scenarioA hello)) = .ok r ∧
      r.Body.Message = [0, 0, 0, 0, 104, 101, 108, 108, 111] ∧
      r.Body.Message ≠ hello := by
  obtain ⟨r, hr, hm, _⟩ :=
    TonBody_scenarioA sampleEnv (sampleMsg ownerAddr (scenarioA hello)) hello
      (by decide) rfl
  refine ⟨r, hr, ?_, ?_⟩
  · rw [hm]; rfl
  · rw [hm]; decide

/-- C3, amended. `TonBody` reads the comment as the chained string that follows
the 32-bit zero operation code in the body itself.  For the body of scenario A
(zero code, one child holding a zero tag and the bytes of `t`) it succeeds and
the comment is the child's whole content: four zero bytes, then `t`.  The
comment is `t` exactly when the bytes of `t` follow the zero code in the body
cell, without a child. -/
theorem TonBody_comment_follows_opcode (env : Env) (ti : InternalMessage) (t : List Nat)
    (ht : ∀ b ∈ t, b < 256) :
    (ti.Body = scenarioA t →
      ∃ r, TonBody env ti = .ok r ∧ r.Body.Message = [0, 0, 0, 0] ++ t) ∧
    (ti.Body = inlineComment t →
      ∃ r, TonBody env ti = .ok r ∧ r.Body.Message = t) := by
  constructor
  · intro hb
    obtain ⟨r, hr, hm, _⟩ := TonBody_scenarioA env ti t ht hb
    exact ⟨r, hr, hm⟩
  · intro hb
    obtain ⟨r, hr, hm, _⟩ := TonBody_inline env ti t ht hb
    exact ⟨r, hr, hm⟩

/-- C6. The filter of the loop: a transaction without an inbound message, or
whose inbound message is not internal, or whose description is ordinary with a
bounce phase recorded as successful, leads to no call at all, neither of a
decoder nor of a handler, whatever the body. -/
theorem filtered_transaction_no_call (env : Env) (tx : Transaction)
    (h : tx.In = Option.none ∨ tx.In = some .externalIn ∨ tx.In = some .externalOut ∨
      tx.Description = .ordinary (some .ok)) :
    processTx env tx = [] := by
  unfold processTx
  rcases h with h | h | h | h
  · rw [h]
  · rw [h]
  · rw [h]
  · rw [h]
    cases tx.In with
    | none => rfl
    | some m => cases m <;> rfl

theorem NFTBody_ok_inv (env : Env) (ti : InternalMessage) (qs : List Query) (r : RootNFT)
    (h : NFTBody env ti = (qs, .ok r)) :
    ∃ nftAddr d qm metaURI text,
      env.parseAddr (env.addrString ti.SrcAddr) = some nftAddr ∧
      env.getNFTData nftAddr = .ok d ∧
      resolveMeta env d = (qm, .ok metaURI) ∧
      loadComment ti.Body.BeginParse = .ok text ∧
      qs = .getNFTData nftAddr :: qm ∧
      r.Body = { OpCode := 0x7362d09c, Initialized := d.Initialized,
                 Index := toString d.Index, Address := env.addrString nftAddr,
                 OwnerAddress := env.addrString d.OwnerAddress,
                 CollectionAddress := env.addrString d.CollectionAddress,
                 Meta := metaURI, Message := text } := by
  unfold NFTBody at h
  cases hp : env.parseAddr (env.addrString ti.SrcAddr) with
  | none => simp [hp] at h
  | some nftAddr =>
    simp only [hp] at h
    cases hd : env.getNFTData nftAddr with
    | error e => simp [hd] at h
    | ok d =>
      simp only [hd] at h
      cases hm : resolveMeta env d with
      | mk qm res =>
        simp only [hm] at h
        cases res with
        | error e => simp at h
        | ok metaURI =>
          cases hc : loadComment ti.Body.BeginParse with
          | error e => simp [hc] at h
          | ok text =>
            simp only [hc] at h
            refine ⟨nftAddr, d, qm, metaURI, text, rfl, hd, hm, rfl, ?_, ?_⟩
            · exact (Prod.mk.inj h).1.symm
            · have := (Prod.mk.inj h).2
              injection this with hr
              rw [← hr]

/-- C7. The operation code of every record `NFTBody` returns is `0x7362d09c`,
the fungible-transfer code, and so differs from `0x05138d91`, the code by
which the loop selects the NFT decoder. -/
theorem NFTBody_opcode_is_jetton_code (env : Env) (ti : InternalMessage) (qs : List Query)
    (r : RootNFT) (h : NFTBody env ti = (qs, .ok r)) :
    r.Body.OpCode = 0x7362d09c ∧ r.Body.OpCode ≠ 0x05138d91 := by
  obtain ⟨_, _, _, _, _, _, _, _, _, _, hr⟩ := NFTBody_ok_inv env ti qs r h
  rw [hr]
  exact ⟨rfl, by simp⟩

/-! ## The properties at sample inputs -/

theorem classification_total_witness :
    processTx sampleEnv (sampleTx (sampleMsg itemAddr nftNotification)) =
      match (NFTBody sampleEnv (sampleMsg itemAddr nftNotification)).2 with
      | .ok body => [.NFTBody (sampleMsg itemAddr nftNotification), .clbNFT body]
      | _ => [.NFTBody (sampleMsg itemAddr nftNotification)] :=
  (classification_total sampleEnv (sampleTx (sampleMsg itemAddr nftNotification))
    (sampleMsg itemAddr nftNotification) ⟨rfl, by decide⟩).1 (by decide)

theorem TonBody_short_body_rejected_witness :
    TonBody sampleEnv (sampleMsg ownerAddr emptyBody) = .error (.loadSumType .notEnoughData) ∧
      processTx sampleEnv (sampleTx (sampleMsg ownerAddr emptyBody)) =
        [.TonBody (sampleMsg ownerAddr emptyBody)] :=
  (TonBody_short_body_rejected sampleEnv (sampleTx (sampleMsg ownerAddr emptyBody))
    (sampleMsg ownerAddr emptyBody) ⟨rfl, by decide⟩).1 (by decide)

theorem TonBody_comment_follows_opcode_witness :
    ∃ r, TonBody sampleEnv (sampleMsg ownerAddr (inlineComment hello)) = .ok r ∧
      r.Body.Message = hello :=
  (TonBody_comment_follows_opcode sampleEnv (sampleMsg ownerAddr (inlineComment hello)) hello
    (by decide)).2 rfl

theorem filtered_transaction_no_call_witness :
    processTx sampleEnv
      ⟨some (.internal (sampleMsg ownerAddr nftNotification)), .ordinary (some .ok)⟩ = [] :=
  filtered_transaction_no_call sampleEnv
    ⟨some (.internal (sampleMsg ownerAddr nftNotification)), .ordinary (some .ok)⟩
    (Or.inr (Or.inr (Or.inr rfl)))

theorem NFTBody_opcode_is_jetton_code_witness :
    ∃ qs r, NFTBody sampleEnv (sampleMsg itemAddr nftNotification) = (qs, .ok r) ∧
      r.Body.OpCode = 0x7362d09c ∧ r.Body.OpCode ≠ 0x05138d91 :=
  ⟨_, _, rfl,
    NFTBody_opcode_is_jetton_code sampleEnv (sampleMsg itemAddr nftNotification) _ _ rfl⟩


theorem loadBigUInt_natToBits (w n : Nat) (hw : w ≤ 256) (hn : n < 2 ^ w) (rest : List Bool)
    (refs : List Cell) :
    Slice.LoadBigUInt ⟨natToBits w n ++ rest, refs⟩ w = .ok (n, ⟨rest, refs⟩) := by
  have hl : (natToBits w n).length = w := natToBits_length w n
  have ht : List.take w (natToBits w n ++ rest) = natToBits w n := by
    rw [List.take_append_of_le_length (by omega)]
    exact List.take_of_length_le (by omega)
  have hd : List.drop w (natToBits w n ++ rest) = rest := by
    rw [List.drop_append_of_le_length (by omega), List.drop_of_length_le (by omega)]
    rfl
  unfold Slice.LoadBigUInt
  have h1 : ¬ 256 < w := by omega
  have h2 : ¬ (natToBits w n ++ rest).length < w := by
    rw [List.length_append, hl]; omega
  simp only [h1, h2, if_false, ht, hd, bitsToNat_natToBits w n hn]

theorem loadSlice_bytes (d : List Nat) (hd : ∀ b ∈ d, b < 256) (rest : List Bool)
    (refs : List Cell) :
    Slice.LoadSlice ⟨bytesToBits d ++ rest, refs⟩ (8 * d.length) = .ok (d, ⟨rest, refs⟩) := by
  have hl : (bytesToBits d).length = 8 * d.length := bytesToBits_length d
  have ht : List.take (8 * d.length) (bytesToBits d ++ rest) = bytesToBits d := by
    rw [List.take_append_of_le_length (by omega)]
    exact List.take_of_length_le (by omega)
  have hdr : List.drop (8 * d.length) (bytesToBits d ++ rest) = rest := by
    rw [List.drop_append_of_le_length (by omega), List.drop_of_length_le (by omega)]
    rfl
  unfold Slice.LoadSlice
  have h2 : ¬ (bytesToBits d ++ rest).length < 8 * d.length := by
    rw [List.length_append, hl]; omega
  simp only [h2, if_false, ht, hdr, bitsToBytes_bytesToBits d hd]

theorem loadBigCoins_store (a : Nat) (ha : a < 2 ^ 120) (rest : List Bool) (refs : List Cell) :
    Slice.LoadBigCoins ⟨storeBigCoins a ++ rest, refs⟩ = .ok (a, ⟨rest, refs⟩) := by
  have hs : Nat.size a ≤ 120 := Nat.size_le.mpr ha
  have hln : (Nat.size a + 7) / 8 < 2 ^ 4 := by
    have : (Nat.size a + 7) / 8 ≤ 15 := by omega
    omega
  have hval : a < 2 ^ (8 * ((Nat.size a + 7) / 8)) :=
    lt_of_lt_of_le (Nat.lt_size_self a) (Nat.pow_le_pow_right (by decide) (by omega))
  unfold Slice.LoadBigCoins storeBigCoins
  rw [List.append_assoc, loadUInt_natToBits 4 _ (by decide) hln]
  simp only [Nat.mul_comm ((Nat.size a + 7) / 8) 8]
  exact loadBigUInt_natToBits _ a (by omega) hval rest refs

theorem toSigned_byte (w : Int) (h1 : -128 ≤ w) (h2 : w < 128) :
    toSigned 8 (w % 256).toNat = w := by
  unfold toSigned
  have hnn : 0 ≤ w % 256 := Int.emod_nonneg w (by decide)
  have hc : ((w % 256).toNat : Int) = w % 256 := Int.toNat_of_nonneg hnn
  by_cases h : (w % 256).toNat < 2 ^ (8 - 1)
  · rw [if_pos h, hc]
    have : ((w % 256).toNat : Int) < 128 := by exact_mod_cast h
    omega
  · rw [if_neg h, hc]
    have : ¬ ((w % 256).toNat : Int) < 128 := by
      intro hh
      exact h (by exact_mod_cast hh)
    have e : (2 : Int) ^ 8 = 256 := by norm_num
    rw [e]
    omega

theorem loadAddr_store (s : Address) (hs : s.valid) (rest : List Bool) (refs : List Cell) :
    Slice.LoadAddr ⟨storeAddr s ++ rest, refs⟩ = .ok (s, ⟨rest, refs⟩) := by
  cases s with
  | none =>
    have h := loadUInt_natToBits 2 0 (by decide) (by decide) rest refs
    have e : natToBits 2 0 = [false, false] := by decide
    rw [e] at h
    unfold Slice.LoadAddr storeAddr
    rw [h]
    simp
  | ext _ _ => exact absurd hs (by simp [Address.valid])
  | var _ _ _ => exact absurd hs (by simp [Address.valid])
  | std w d =>
    obtain ⟨h1, h2, hlen, hb⟩ := hs
    have hw : (w % 256).toNat < 2 ^ 8 := by
      have hnn : 0 ≤ w % 256 := Int.emod_nonneg w (by decide)
      have hlt : w % 256 < 256 := Int.emod_lt_of_pos w (by decide)
      have : ((w % 256).toNat : Int) < 256 := by rw [Int.toNat_of_nonneg hnn]; exact hlt
      have : (w % 256).toNat < 256 := by exact_mod_cast this
      simpa using this
    have e : ([true, false, false] : List Bool) ++ natToBits 8 (w % 256).toNat
          ++ bytesToBits d ++ rest
        = natToBits 2 2 ++ (natToBits 1 0 ++ (natToBits 8 (w % 256).toNat
          ++ (bytesToBits d ++ rest))) := by
      have e2 : natToBits 2 2 = [true, false] := by decide
      have e1 : natToBits 1 0 = [false] := by decide
      rw [e2, e1]
      simp
    have h256 : 8 * d.length = 256 := by omega
    have hsl := loadSlice_bytes d hb rest refs
    rw [h256] at hsl
    unfold Slice.LoadAddr storeAddr
    rw [e, loadUInt_natToBits 2 2 (by decide) (by decide)]
    simp only [if_true]
    rw [loadUInt_natToBits 1 0 (by decide) (by decide)]
    simp only [skipAnycast, if_true]
    rw [loadUInt_natToBits 8 _ (by decide) hw]
    simp only [hsl, toSigned_byte w h1 h2]

theorem loadOpCode_natToBits (c : Nat) (hc : c < 2 ^ 32) (rest : List Bool) (refs : List Cell) :
    loadOpCode ⟨natToBits 32 c ++ rest, refs⟩ = (c, ⟨rest, refs⟩) := by
  unfold loadOpCode
  rw [loadUInt_natToBits 32 c (by decide) hc]

theorem jettonFields_store (c q a : Nat) (s : Address) (hc : c < 2 ^ 32) (hq : q < 2 ^ 64)
    (ha : a < 2 ^ 120) (hs : s.valid) (tail : List Bool) (refs : List Cell) :
    jettonFields ⟨natToBits 32 c ++ natToBits 64 q ++ storeBigCoins a ++ storeAddr s ++ tail,
        refs⟩ = .ok (c, q, a, s, ⟨tail, refs⟩) := by
  unfold jettonFields
  simp only [List.append_assoc]
  rw [loadOpCode_natToBits c hc]
  simp only []
  rw [loadUInt_natToBits 64 q (by decide) hq]
  simp only []
  rw [loadBigCoins_store a ha]
  simp only []
  rw [loadAddr_store s hs]


theorem JettonBody_of_fields (env : Env) (ti : InternalMessage) (c q a : Nat) (s : Address)
    (sl : Slice) (text : List Nat)
    (h1 : jettonFields ti.Body.BeginParse = .ok (c, q, a, s, sl))
    (h2 : jettonComment sl = .ok text) :
    ∃ r, JettonBody env (some ti) = .ok r ∧
      r.Body = { OpCode := c, QueryID := q, Amount := toString a,
                 Sender := env.addrString s, Message := text } := by
  unfold JettonBody
  simp only [h1, h2]
  exact ⟨_, rfl, rfl⟩

theorem JettonBody_of_fields_error (env : Env) (ti : InternalMessage) (e : DecodeError)
    (h : jettonFields ti.Body.BeginParse = .error e) :
    JettonBody env (some ti) = .error e := by
  unfold JettonBody
  simp only [h]

theorem JettonBody_of_comment_error (env : Env) (ti : InternalMessage) (c q a : Nat)
    (s : Address) (sl : Slice) (e : DecodeError)
    (h1 : jettonFields ti.Body.BeginParse = .ok (c, q, a, s, sl))
    (h2 : jettonComment sl = .error e) :
    JettonBody env (some ti) = .error e := by
  unfold JettonBody
  simp only [h1, h2]

theorem loadMaybeRef_clear (bs : List Bool) (refs : List Cell) :
    Slice.LoadMaybeRef ⟨false :: bs, refs⟩ = .ok (Option.none, ⟨bs, refs⟩) := by
  have h := loadUInt_natToBits 1 0 (by decide) (by decide) bs refs
  have e : natToBits 1 0 = [false] := by decide
  rw [e] at h
  unfold Slice.LoadMaybeRef
  rw [show (false :: bs) = [false] ++ bs from rfl, h]
  simp

theorem loadMaybeRef_set (bs : List Bool) (refs : List Cell) :
    Slice.LoadMaybeRef ⟨true :: bs, refs⟩ =
      match refs with
      | [] => .error .noMoreRefs
      | ref :: rest => .ok (some ref.BeginParse, ⟨bs, rest⟩) := by
  have h := loadUInt_natToBits 1 1 (by decide) (by decide) bs refs
  have e : natToBits 1 1 = [true] := by decide
  rw [e] at h
  unfold Slice.LoadMaybeRef
  rw [show (true :: bs) = [true] ++ bs from rfl, h]
  cases refs <;> simp

theorem jettonComment_clear (bs : List Bool) (refs : List Cell) :
    jettonComment ⟨false :: bs, refs⟩ = .ok [] := by
  unfold jettonComment
  rw [loadMaybeRef_clear]

theorem jettonComment_set (bs : List Bool) (child : Cell) (refs : List Cell) :
    jettonComment ⟨true :: bs, child :: refs⟩ = loadComment child.BeginParse := by
  unfold jettonComment
  rw [loadMaybeRef_set]

theorem jettonComment_no_child (bs : List Bool) :
    jettonComment ⟨true :: bs, []⟩ = .error (.loadPayloadRef .noMoreRefs) := by
  unfold jettonComment
  rw [loadMaybeRef_set]

/-- C4. End-to-end scenario B: for a body made of the code `0x7362d09c`, a 64-bit
query id `q`, the coin encoding of `a`, the encoding of a valid sender `s` and
a clear optional-reference flag, `JettonBody` succeeds and the record has that
code, `q`, the decimal string of `a`, the string form of `s` and an empty
comment. -/
theorem JettonBody_scenarioB (env : Env) (ti : InternalMessage) (q a : Nat) (s : Address)
    (rest : List Bool) (refs : List Cell)
    (hq : q < 2 ^ 64) (ha : a < 2 ^ 120) (hs : s.valid)
    (hb : ti.Body = scenarioB q a s rest refs) :
    ∃ r, JettonBody env (some ti) = .ok r ∧
      r.Body.OpCode = 0x7362d09c ∧ r.Body.QueryID = q ∧ r.Body.Amount = toString a ∧
      r.Body.Sender = env.addrString s ∧ r.Body.Message = [] := by
  have hf : jettonFields ti.Body.BeginParse =
      .ok (0x7362d09c, q, a, s, ⟨false :: rest, refs⟩) := by
    rw [hb]
    have := jettonFields_store 0x7362d09c q a s (by decide) hq ha hs ([false] ++ rest) refs
    simpa [scenarioB, Cell.BeginParse, Cell.bits, Cell.refs, List.append_assoc] using this
  obtain ⟨r, hr, hbody⟩ :=
    JettonBody_of_fields env ti _ q a s _ [] hf (jettonComment_clear rest refs)
  refine ⟨r, hr, ?_⟩
  rw [hbody]
  exact ⟨rfl, rfl, rfl, rfl, rfl⟩


theorem jettonFields_unreadable (body : Cell) (h : requiredFieldUnreadable body) :
    ∃ e, jettonFields body.BeginParse = .error e := by
  unfold jettonFields
  rcases h with ⟨e, he⟩ | ⟨q, s2, hq, ⟨e, he⟩ | ⟨a, s3, ha, e, he⟩⟩
  · exact ⟨.loadQueryID e, by simp only [he]⟩
  · exact ⟨.loadAmount e, by simp only [hq, he]⟩
  · exact ⟨.loadSender e, by simp only [hq, ha, he]⟩

theorem processTx_bounced (env : Env) (tx : Transaction)
    (h : tx.Description = .ordinary (some .ok)) : processTx env tx = [] := by
  unfold processTx
  rw [h]
  cases tx.In with
  | none => rfl
  | some m => cases m <;> rfl

theorem processTx_jetton_error (env : Env) (tx : Transaction) (ti : InternalMessage)
    (e : DecodeError) (hin : tx.In = some (.internal ti))
    (he : JettonBody env (some ti) = .error e) (r : RootJetton) :
    Call.clbJetton r ∉ processTx env tx := by
  by_cases hd : tx.Description = .ordinary (some .ok)
  · rw [processTx_bounced env tx hd]
    simp
  · rw [processTx_passes env tx ti ⟨hin, hd⟩, he]
    split_ifs
    · cases (NFTBody env ti).2 <;> simp
    · simp
    · cases TonBody env ti <;> simp
    · simp

theorem leadingCode_none (body : Cell) (h : leadingCode body = Option.none) :
    body.bits.length < 32 := by
  unfold leadingCode at h
  by_cases hl : body.bits.length < 32
  · exact hl
  · simp [hl] at h

/-- C5. The fungible-transfer decoder fails as a whole when a structurally
required field is unreadable: if the read of the query identifier, of the
amount or of the sender address fails, `JettonBody` returns an error and no
record.  The loop then never invokes the Jetton handler for a transaction that
carries the message; it invokes no handler at all when the body starts with
the fungible-transfer code `0x7362d09c` or is cut before its 32nd bit; and for
a transaction it routes to `JettonBody` its only call is the decoder. -/
theorem JettonBody_fails_on_unreadable_field (env : Env) (ti : InternalMessage)
    (h : requiredFieldUnreadable ti.Body) :
    (∃ e, JettonBody env (some ti) = .error e) ∧
    (∀ tx r, tx.In = some (.internal ti) → Call.clbJetton r ∉ processTx env tx) ∧
    (∀ tx, tx.In = some (.internal ti) →
      leadingCode ti.Body = some 0x7362d09c ∨ leadingCode ti.Body = Option.none →
      handlerCalls (processTx env tx) = []) ∧
    (∀ tx, passes tx ti → leadingCode ti.Body = some 0x7362d09c →
      processTx env tx = [.JettonBody ti]) := by
  obtain ⟨e, he⟩ := jettonFields_unreadable ti.Body h
  have hJ : JettonBody env (some ti) = .error e := JettonBody_of_fields_error env ti e he
  refine ⟨⟨e, hJ⟩, ?_, ?_, ?_⟩
  · intro tx r hin
    exact processTx_jetton_error env tx ti e hin hJ r
  · intro tx hin hl
    by_cases hd : tx.Description = .ordinary (some .ok)
    · rw [processTx_bounced env tx hd]
      rfl
    · rw [processTx_passes env tx ti ⟨hin, hd⟩, loadOpCode_fst]
      rcases hl with hl | hl
      · rw [hl, hJ]
        simp [handlerCalls, Call.isHandler]
      · rw [hl, TonBody_of_comment_error env ti _
          (loadComment_short _ (leadingCode_none ti.Body hl))]
        simp [handlerCalls, Call.isHandler]
  · intro tx hp hl
    rw [processTx_passes env tx ti hp, loadOpCode_fst, hl, hJ]
    simp

set_option maxRecDepth 8192 in
theorem JettonBody_fails_on_unreadable_field_witness :
    (∃ e, JettonBody sampleEnv (some (sampleMsg ownerAddr missingSender)) = .error e) ∧
    processTx sampleEnv (sampleTx (sampleMsg ownerAddr missingSender)) =
      [.JettonBody (sampleMsg ownerAddr missingSender)] :=
  have h := JettonBody_fails_on_unreadable_field sampleEnv (sampleMsg ownerAddr missingSender)
    (Or.inr ⟨7, _, rfl, Or.inr ⟨1000000000, _, rfl, .notEnoughData, rfl⟩⟩)
  ⟨h.1, h.2.2.2 (sampleTx (sampleMsg ownerAddr missingSender)) ⟨rfl, by decide⟩ (by decide)⟩


theorem ownerAddr_valid : ownerAddr.valid := by
  show (-128 : Int) ≤ 0 ∧ (0 : Int) < 128 ∧ (sampleId 3).length = 32 ∧ ∀ b ∈ sampleId 3, b < 256
  exact ⟨by decide, by decide, rfl, by decide⟩

theorem jettonFields_jettonWithRef (q a : Nat) (s : Address) (refs : List Cell)
    (hq : q < 2 ^ 64) (ha : a < 2 ^ 120) (hs : s.valid) :
    jettonFields (jettonWithRef q a s refs).BeginParse =
      .ok (0x7362d09c, q, a, s, ⟨[true], refs⟩) :=
  jettonFields_store 0x7362d09c q a s (by decide) hq ha hs [true] refs

/-- C10. Comment extraction in `JettonBody`, once the required fields are read
and the cursor is `slice`: a clear flag gives an empty comment; a set flag
with a child that starts with a 32-bit zero tag gives the chained string read
from the rest of that child, and an error when that string cannot be read; a
set flag with a non-zero tag gives an empty comment; a set flag without a
child left, or with a child of fewer than 32 bits, gives an error and no
record. -/
theorem JettonBody_comment_extraction (env : Env) (ti : InternalMessage) (c q a : Nat)
    (s : Address) (slice : Slice)
    (hf : jettonFields ti.Body.BeginParse = .ok (c, q, a, s, slice)) :
    (∀ bs, slice.bits = false :: bs →
      ∃ r, JettonBody env (some ti) = .ok r ∧ r.Body.Message = []) ∧
    (∀ bs child refs rest, slice.bits = true :: bs → slice.refs = child :: refs →
      child.bits = natToBits 32 0 ++ rest →
      (∀ text, Slice.LoadStringSnake ⟨rest, child.refs⟩ = .ok text →
        ∃ r, JettonBody env (some ti) = .ok r ∧ r.Body.Message = text) ∧
      (∀ e, Slice.LoadStringSnake ⟨rest, child.refs⟩ = .error e →
        JettonBody env (some ti) = .error (.loadTextComment e))) ∧
    (∀ bs child refs tag rest, slice.bits = true :: bs → slice.refs = child :: refs →
      tag < 2 ^ 32 → tag ≠ 0 → child.bits = natToBits 32 tag ++ rest →
      ∃ r, JettonBody env (some ti) = .ok r ∧ r.Body.Message = []) ∧
    (∀ bs, slice.bits = true :: bs → slice.refs = [] →
      JettonBody env (some ti) = .error (.loadPayloadRef .noMoreRefs)) ∧
    (∀ bs child refs, slice.bits = true :: bs → slice.refs = child :: refs →
      child.bits.length < 32 →
      JettonBody env (some ti) = .error (.loadSumType .notEnoughData)) := by
  obtain ⟨sbits, srefs⟩ := slice
  refine ⟨?_, ?_, ?_, ?_, ?_⟩
  · intro bs hb
    simp only at hb
    subst hb
    obtain ⟨r, hr, hbody⟩ := JettonBody_of_fields env ti c q a s _ [] hf (jettonComment_clear bs srefs)
    exact ⟨r, hr, by rw [hbody]⟩
  · intro bs child refs rest hb hr hc
    simp only at hb hr
    subst hb hr
    have hcom : jettonComment ⟨true :: bs, child :: refs⟩ =
        match Slice.LoadStringSnake ⟨rest, child.refs⟩ with
        | .error e => .error (.loadTextComment e)
        | .ok value => .ok value := by
      rw [jettonComment_set, Cell.BeginParse, hc, loadComment_zero]
    constructor
    · intro text ht
      rw [ht] at hcom
      obtain ⟨r, hr, hbody⟩ := JettonBody_of_fields env ti c q a s _ text hf hcom
      exact ⟨r, hr, by rw [hbody]⟩
    · intro e he
      rw [he] at hcom
      exact JettonBody_of_comment_error env ti c q a s _ _ hf hcom
  · intro bs child refs tag rest hb hr htag h0 hc
    simp only at hb hr
    subst hb hr
    have hcom : jettonComment ⟨true :: bs, child :: refs⟩ = .ok [] := by
      rw [jettonComment_set, Cell.BeginParse, hc, loadComment_nonzero tag htag h0]
    obtain ⟨r, hr, hbody⟩ := JettonBody_of_fields env ti c q a s _ [] hf hcom
    exact ⟨r, hr, by rw [hbody]⟩
  · intro bs hb hr
    simp only at hb hr
    subst hb hr
    exact JettonBody_of_comment_error env ti c q a s _ _ hf (jettonComment_no_child bs)
  · intro bs child refs hb hr hlen
    simp only at hb hr
    subst hb hr
    have hcom : jettonComment ⟨true :: bs, child :: refs⟩ =
        .error (.loadSumType .notEnoughData) := by
      rw [jettonComment_set]
      exact loadComment_short _ hlen
    exact JettonBody_of_comment_error env ti c q a s _ _ hf hcom

theorem JettonBody_comment_extraction_witness :
    ∃ r, JettonBody sampleEnv
        (some (sampleMsg ownerAddr (jettonWithRef 7 1000000000 ownerAddr [commentChild hello])))
        = .ok r ∧ r.Body.Message = hello :=
  ((JettonBody_comment_extraction sampleEnv
      (sampleMsg ownerAddr (jettonWithRef 7 1000000000 ownerAddr [commentChild hello]))
      0x7362d09c 7 1000000000 ownerAddr ⟨[true], [commentChild hello]⟩
      (jettonFields_jettonWithRef 7 1000000000 ownerAddr [commentChild hello]
        (by decide) (by decide) ownerAddr_valid)).2.1
    [] (commentChild hello) [] (bytesToBits hello) rfl rfl rfl).1 hello rfl

theorem JettonBody_scenarioB_witness :
    ∃ r, JettonBody sampleEnv
        (some (sampleMsg ownerAddr (scenarioB 7 1000000000 ownerAddr [] []))) = .ok r ∧
      r.Body.OpCode = 0x7362d09c ∧ r.Body.QueryID = 7 ∧ r.Body.Amount = "1000000000" ∧
      r.Body.Sender = "owner" ∧ r.Body.Message = [] :=
  JettonBody_scenarioB sampleEnv (sampleMsg ownerAddr (scenarioB 7 1000000000 ownerAddr [] []))
    7 1000000000 ownerAddr [] [] (by decide) (by decide) ownerAddr_valid rfl


theorem resolveMeta_ok_inv (env : Env) (d : NFTData) (qm : List Query) (m : String)
    (h : resolveMeta env d = (qm, .ok m)) :
    (d.CollectionAddress.isNone = true → m = "" ∧ qm = []) ∧
    (d.CollectionAddress.isNone = false →
      ∃ content, env.getNFTContent d.CollectionAddress d.Index d.Content = .ok content ∧
        qm = [.getNFTContent d.CollectionAddress d.Index d.Content] ∧
        m = match content with
          | .offchain uri => uri
          | _ => "") := by
  unfold resolveMeta at h
  constructor
  · intro hn
    simp only [hn, if_true] at h
    have h1 := (Prod.mk.inj h).1
    have h2 := (Prod.mk.inj h).2
    injection h2 with h2
    exact ⟨h2.symm, h1.symm⟩
  · intro hn
    simp only [hn] at h
    cases hc : env.getNFTContent d.CollectionAddress d.Index d.Content with
    | error e => simp [hc] at h
    | ok content =>
      refine ⟨content, rfl, ?_⟩
      cases content with
      | offchain uri =>
        simp only [hc] at h
        simp at h
        exact ⟨h.1.symm, h.2.symm⟩
      | onchain =>
        simp only [hc] at h
        simp at h
        exact ⟨h.1.symm, h.2.symm⟩
      | semichain uri =>
        simp only [hc] at h
        simp at h
        exact ⟨h.1.symm, h.2.symm⟩

/-- C8. Metadata resolution in `NFTBody`, the two ledger queries being oracle
functions.  On success the item state was queried at the address parsed back
from the string form of the message source address (the source address itself,
by the parse/print law of the address library), and the record's address,
owner, collection, index and initialized fields are the string and boolean
forms of that address and of the item state.  With a null collection address
the collection query is not issued and `Meta` is empty; otherwise the
collection-content query is issued once, after the item query, and `Meta` is
its locator URI for off-chain content and empty for any other content. -/
theorem NFTBody_meta_resolution (env : Env) (ti : InternalMessage) (qs : List Query)
    (r : RootNFT) (h : NFTBody env ti = (qs, .ok r)) :
    ∃ nftAddr d,
      env.parseAddr (env.addrString ti.SrcAddr) = some nftAddr ∧
      (ParsePrint env → nftAddr = ti.SrcAddr) ∧
      env.getNFTData nftAddr = .ok d ∧
      r.Body.Address = env.addrString nftAddr ∧
      r.Body.OwnerAddress = env.addrString d.OwnerAddress ∧
      r.Body.CollectionAddress = env.addrString d.CollectionAddress ∧
      r.Body.Index = toString d.Index ∧
      r.Body.Initialized = d.Initialized ∧
      (d.CollectionAddress.isNone = true →
        r.Body.Meta = "" ∧ qs = [.getNFTData nftAddr]) ∧
      (d.CollectionAddress.isNone = false →
        ∃ content, env.getNFTContent d.CollectionAddress d.Index d.Content = .ok content ∧
          qs = [.getNFTData nftAddr,
                .getNFTContent d.CollectionAddress d.Index d.Content] ∧
          r.Body.Meta = match content with
            | .offchain uri => uri
            | _ => "") := by
  obtain ⟨nftAddr, d, qm, m, text, hp, hd, hm, _, hqs, hr⟩ := NFTBody_ok_inv env ti qs r h
  obtain ⟨hnone, hsome⟩ := resolveMeta_ok_inv env d qm m hm
  refine ⟨nftAddr, d, hp, fun hl => hl _ _ hp, hd, ?_, ?_, ?_, ?_, ?_, ?_, ?_⟩
  · rw [hr]
  · rw [hr]
  · rw [hr]
  · rw [hr]
  · rw [hr]
  · intro hn
    obtain ⟨h1, h2⟩ := hnone hn
    rw [hr, hqs, h1, h2]
    exact ⟨rfl, rfl⟩
  · intro hn
    obtain ⟨content, hc, h1, h2⟩ := hsome hn
    refine ⟨content, hc, ?_, ?_⟩
    · rw [hqs, h1]
    · rw [hr]
      exact h2

theorem processTx_nft_not_ok (env : Env) (tx : Transaction) (ti : InternalMessage)
    (hin : tx.In = some (.internal ti))
    (he : ∀ body, (NFTBody env ti).2 ≠ .ok body) (r : RootNFT) :
    Call.clbNFT r ∉ processTx env tx := by
  by_cases hd : tx.Description = .ordinary (some .ok)
  · rw [processTx_bounced env tx hd]
    simp
  · rw [processTx_passes env tx ti ⟨hin, hd⟩]
    split_ifs
    · cases hN : (NFTBody env ti).2 with
      | ok body => exact absurd hN (he body)
      | error e => simp
      | panic => simp
    · cases JettonBody env (some ti) <;> simp
    · cases TonBody env ti <;> simp
    · simp

/-- C9. External-query failure aborts the non-fungible decode with no partial
record: when the item-state query fails, or the item has a non-null collection
address and the collection-content query fails, `NFTBody` returns that error
and no record.  The loop then never invokes the NFT handler for a transaction
that carries the message; it invokes no handler at all when the body starts
with the code `0x05138d91`, by which it selects `NFTBody`; and for a
transaction it routes to `NFTBody` its only call is the decoder. -/
theorem NFTBody_query_failure_aborts (env : Env) (ti : InternalMessage) (nftAddr : Address)
    (hp : env.parseAddr (env.addrString ti.SrcAddr) = some nftAddr)
    (hq : (∃ e, env.getNFTData nftAddr = .error e) ∨
      (∃ d e, env.getNFTData nftAddr = .ok d ∧ d.CollectionAddress.isNone = false ∧
        env.getNFTContent d.CollectionAddress d.Index d.Content = .error e)) :
    (∃ e, (NFTBody env ti).2 = .error (.query e)) ∧
    (∀ tx r, tx.In = some (.internal ti) → Call.clbNFT r ∉ processTx env tx) ∧
    (∀ tx, tx.In = some (.internal ti) → leadingCode ti.Body = some 0x05138d91 →
      handlerCalls (processTx env tx) = []) ∧
    (∀ tx, passes tx ti → leadingCode ti.Body = some 0x05138d91 →
      processTx env tx = [.NFTBody ti]) := by
  have hN : ∃ e, (NFTBody env ti).2 = .error (.query e) := by
    unfold NFTBody
    rcases hq with ⟨e, he⟩ | ⟨d, e, hd, hn, he⟩
    · exact ⟨e, by simp only [hp, he]⟩
    · refine ⟨e, ?_⟩
      have hm : resolveMeta env d =
          ([.getNFTContent d.CollectionAddress d.Index d.Content], .error e) := by
        unfold resolveMeta
        simp only [hn, he]
        rfl
      simp only [hp, hd, hm]
  obtain ⟨e, he⟩ := hN
  refine ⟨⟨e, he⟩, ?_, ?_, ?_⟩
  · intro tx r hin
    apply processTx_nft_not_ok env tx ti hin
    intro body hb
    rw [he] at hb
    cases hb
  · intro tx hin hl
    by_cases hd : tx.Description = .ordinary (some .ok)
    · rw [processTx_bounced env tx hd]
      rfl
    · rw [processTx_passes env tx ti ⟨hin, hd⟩, loadOpCode_fst, hl, he]
      simp [handlerCalls, Call.isHandler]
  · intro tx hpass hl
    rw [processTx_passes env tx ti hpass, loadOpCode_fst, hl, he]
    simp

theorem NFTBody_meta_resolution_witness :
    ∃ qs r, NFTBody sampleEnv (sampleMsg itemAddr nftNotification) = (qs, .ok r) ∧
      r.Body.Meta = "https://example.org/5.json" ∧
      qs = [.getNFTData itemAddr, .getNFTContent collectionAddr 5 .onchain] ∧
      ∃ nftAddr d, sampleEnv.getNFTData nftAddr = .ok d ∧
        r.Body.Address = sampleEnv.addrString nftAddr ∧
        (d.CollectionAddress.isNone = false →
          ∃ content,
            sampleEnv.getNFTContent d.CollectionAddress d.Index d.Content = .ok content ∧
            r.Body.Meta = match content with
              | .offchain uri => uri
              | _ => "") :=
  ⟨_, _, rfl, rfl, rfl,
    match NFTBody_meta_resolution sampleEnv (sampleMsg itemAddr nftNotification) _ _ rfl with
    | ⟨nftAddr, d, _, _, hd, ha, _, _, _, _, _, hm⟩ =>
      ⟨nftAddr, d, hd, ha, fun hn =>
        match hm hn with
        | ⟨content, hc, _, hmeta⟩ => ⟨content, hc, hmeta⟩⟩⟩

theorem NFTBody_query_failure_aborts_witness :
    (∃ e, (NFTBody failingEnv (sampleMsg itemAddr nftNotification)).2 = .error (.query e)) ∧
    processTx failingEnv (sampleTx (sampleMsg itemAddr nftNotification)) =
      [.NFTBody (sampleMsg itemAddr nftNotification)] :=
  have h := NFTBody_query_failure_aborts failingEnv (sampleMsg itemAddr nftNotification)
    itemAddr rfl (Or.inl ⟨"timeout", rfl⟩)
  ⟨h.1, h.2.2.2 (sampleTx (sampleMsg itemAddr nftNotification)) ⟨rfl, by decide⟩ (by decide)⟩

/-! ## Chained comments, the feed, the registry and the envelope -/

theorem snake_eq_loadStringSnake (bits : List Bool) (refs : List Cell) :
    (Cell.mk bits refs).snake = Slice.LoadStringSnake ⟨bits, refs⟩ := by
  cases refs with
  | nil => rw [Cell.snake]; rfl
  | cons c rest =>
    cases rest with
    | nil => rw [Cell.snake]; rfl
    | cons c2 rest2 => rw [Cell.snake]; rfl

theorem loadStringSnake_single (bits : List Bool) (c : Cell) :
    Slice.LoadStringSnake ⟨bits, [c]⟩ =
      match c.snake with
      | .ok r => .ok (bitsToBytes bits ++ r)
      | .error e => .error e := rfl

theorem loadStringSnake_snakeCells (b0 : List Nat) (bs : List (List Nat))
    (h0 : ∀ b ∈ b0, b < 256) (hs : ∀ l ∈ bs, ∀ b ∈ l, b < 256) :
    Slice.LoadStringSnake ⟨bytesToBits b0, snakeCells bs⟩ = .ok (b0 ++ bs.flatten) := by
  induction bs generalizing b0 with
  | nil =>
    simp only [snakeCells, Slice.LoadStringSnake, bitsToBytes_bytesToBits b0 h0,
      List.flatten_nil, List.append_nil]
  | cons b bs ih =>
    have hb : ∀ x ∈ b, x < 256 := hs b (by simp)
    have hbs : ∀ l ∈ bs, ∀ x ∈ l, x < 256 := fun l hl => hs l (by simp [hl])
    have e : snakeCells (b :: bs) = [.mk (bytesToBits b) (snakeCells bs)] := rfl
    rw [e, loadStringSnake_single, snake_eq_loadStringSnake, ih b hb hbs,
      bitsToBytes_bytesToBits b0 h0]
    simp

/-- C11. Chained-string reconstruction of a comment: when, after the required
fields, the optional-reference flag is set and the comment child holds a
32-bit zero tag followed by the bytes `b0` and is continued through linked
single-child cells holding the byte strings `bs`, the record `JettonBody`
returns has `Body.Message = b0 ++ b1 ++ ... ++ bN`: no byte is dropped, added
or reordered.  Any number of continuation cells is covered, none included. -/
theorem JettonBody_chained_comment (env : Env) (ti : InternalMessage) (c q a : Nat)
    (s : Address) (slice : Slice) (flagRest : List Bool) (refs : List Cell)
    (b0 : List Nat) (bs : List (List Nat))
    (hf : jettonFields ti.Body.BeginParse = .ok (c, q, a, s, slice))
    (hflag : slice.bits = true :: flagRest)
    (hchild : slice.refs = chainedComment b0 bs :: refs)
    (h0 : ∀ b ∈ b0, b < 256) (hs : ∀ l ∈ bs, ∀ b ∈ l, b < 256) :
    ∃ r, JettonBody env (some ti) = .ok r ∧ r.Body.Message = b0 ++ bs.flatten := by
  obtain ⟨sbits, srefs⟩ := slice
  simp only at hflag hchild
  subst hflag hchild
  have hcom : jettonComment ⟨true :: flagRest, chainedComment b0 bs :: refs⟩ =
      .ok (b0 ++ bs.flatten) := by
    rw [jettonComment_set]
    simp only [chainedComment, Cell.BeginParse, Cell.bits, Cell.refs]
    rw [loadComment_zero, loadStringSnake_snakeCells b0 bs h0 hs]
  obtain ⟨r, hr, hbody⟩ := JettonBody_of_fields env ti c q a s _ _ hf hcom
  exact ⟨r, hr, by rw [hbody]⟩

theorem JettonBody_chained_comment_witness :
    ∃ r, JettonBody sampleEnv
        (some (sampleMsg ownerAddr (jettonWithRef 7 1000000000 ownerAddr
          [chainedComment [104, 101] [[108, 108], [111]]]))) = .ok r ∧
      r.Body.Message = hello :=
  JettonBody_chained_comment sampleEnv
    (sampleMsg ownerAddr (jettonWithRef 7 1000000000 ownerAddr
      [chainedComment [104, 101] [[108, 108], [111]]]))
    0x7362d09c 7 1000000000 ownerAddr
    ⟨[true], [chainedComment [104, 101] [[108, 108], [111]]]⟩ [] []
    [104, 101] [[108, 108], [111]]
    (jettonFields_jettonWithRef 7 1000000000 ownerAddr
      [chainedComment [104, 101] [[108, 108], [111]]] (by decide) (by decide) ownerAddr_valid)
    rfl rfl (by decide) (by decide)

theorem subscribe_append_calls (env : Env) (txs1 txs2 : List Transaction) :
    subscribe env (txs1 ++ txs2) = subscribe env txs1 ++ subscribe env txs2 := by
  induction txs1 with
  | nil => rfl
  | cons tx txs ih =>
    show processTx env tx ++ subscribe env (txs ++ txs2) =
      (processTx env tx ++ subscribe env txs) ++ subscribe env txs2
    rw [ih, List.append_assoc]

theorem handlerCalls_append (xs ys : List Call) :
    handlerCalls (xs ++ ys) = handlerCalls xs ++ handlerCalls ys := by
  simp [handlerCalls]

theorem handlerCalls_decodeFails (env : Env) (tx : Transaction) (h : decodeFails env tx) :
    handlerCalls (processTx env tx) = [] := by
  obtain ⟨ti, hp, hcase⟩ := h
  rw [processTx_passes env tx ti hp, loadOpCode_fst]
  rcases hcase with ⟨hl, hN⟩ | ⟨hl, e, he⟩ | ⟨hl, e, he⟩
  · rw [hl]
    cases hr : (NFTBody env ti).2 with
    | ok body => exact absurd hr (hN body)
    | error e => simp [handlerCalls, Call.isHandler]
    | panic => simp [handlerCalls, Call.isHandler]
  · rw [hl, he]
    simp [handlerCalls, Call.isHandler]
  · rcases hl with hl | hl <;> rw [hl, he] <;> simp [handlerCalls, Call.isHandler]

/-- C12. A single bad transaction does not affect the rest of the stream.  The
handler invocations of the loop on the feed `txs1 ++ txs2` are those on `txs1`
followed by those on `txs2` (so invocations occur in feed order, transaction
by transaction); a transaction whose decode fails contributes no invocation,
and with it anywhere in the feed every other transaction is delivered exactly
as if it were absent. -/
theorem bad_transaction_isolated (env : Env) (txs1 txs2 : List Transaction) :
    handlerCalls (subscribe env (txs1 ++ txs2)) =
      handlerCalls (subscribe env txs1) ++ handlerCalls (subscribe env txs2) ∧
    (∀ tx, handlerCalls (subscribe env (tx :: txs2)) =
      handlerCalls (processTx env tx) ++ handlerCalls (subscribe env txs2)) ∧
    (∀ tx, decodeFails env tx →
      handlerCalls (processTx env tx) = [] ∧
      handlerCalls (subscribe env (txs1 ++ tx :: txs2)) =
        handlerCalls (subscribe env (txs1 ++ txs2))) := by
  refine ⟨?_, ?_, ?_⟩
  · rw [subscribe_append_calls, handlerCalls_append]
  · intro tx
    rw [subscribe, handlerCalls_append]
  · intro tx hfail
    have h0 := handlerCalls_decodeFails env tx hfail
    refine ⟨h0, ?_⟩
    rw [subscribe_append_calls, subscribe_append_calls, handlerCalls_append,
      handlerCalls_append, subscribe, handlerCalls_append, h0, List.nil_append]

theorem bad_transaction_isolated_witness :
    handlerCalls (subscribe sampleEnv
        ([sampleTx (sampleMsg ownerAddr (inlineComment hello))] ++
          sampleTx (sampleMsg ownerAddr emptyBody) ::
          [sampleTx (sampleMsg ownerAddr (inlineComment hello))])) =
      handlerCalls (subscribe sampleEnv
        ([sampleTx (sampleMsg ownerAddr (inlineComment hello))] ++
          [sampleTx (sampleMsg ownerAddr (inlineComment hello))])) :=
  ((bad_transaction_isolated sampleEnv
      [sampleTx (sampleMsg ownerAddr (inlineComment hello))]
      [sampleTx (sampleMsg ownerAddr (inlineComment hello))]).2.2
    (sampleTx (sampleMsg ownerAddr emptyBody))
    ⟨sampleMsg ownerAddr emptyBody, ⟨rfl, by decide⟩,
      Or.inr (Or.inr ⟨Or.inr rfl, .loadSumType .notEnoughData, rfl⟩)⟩).2

theorem New_ok_inv (σ : Type) (session : Session) (s0 : Sub σ)
    (h : New σ session = .ok s0) :
    ∃ block lastTxLT,
      s0 = { Context := session.ctx, Block := block, Api := session.api, lt := lastTxLT,
             clbJetton := fun _ st => st, clbTon := fun _ st => st,
             clbNFT := fun _ st => st } := by
  unfold New at h
  cases h1 : session.cfg with
  | error e => simp [h1] at h
  | ok _ =>
    cases h2 : session.connect with
    | error e => simp [h1, h2] at h
    | ok _ =>
      cases h3 : session.master with
      | error e => simp [h1, h2, h3] at h
      | ok _ =>
        cases h4 : session.treasury with
        | none => simp [h1, h2, h3, h4] at h
        | some _ =>
          cases h5 : session.lastTxLT with
          | error e => simp [h1, h2, h3, h4, h5] at h
          | ok lastTxLT =>
            cases h6 : session.block with
            | error e => simp [h1, h2, h3, h4, h5, h6] at h
            | ok block =>
              simp only [h1, h2, h3, h4, h5, h6] at h
              injection h with h
              exact ⟨block, lastTxLT, h.symm⟩

theorem run_noop {σ : Type} (s : Sub σ)
    (hj : ∀ r st, s.clbJetton r st = st) (ht : ∀ r st, s.clbTon r st = st)
    (hn : ∀ r st, s.clbNFT r st = st) (channel : List Transaction) (st : σ) :
    s.run channel st = st := by
  have hinv : ∀ c acc, s.invoke c acc = acc := by
    intro c acc
    cases c <;> simp [Sub.invoke, hj, ht, hn]
  unfold Sub.run
  induction subscribe s.Api channel generalizing st with
  | nil => rfl
  | cons c cs ih => rw [List.foldl_cons, hinv, ih]

/-- C13. The handler registry: `OnTON`, `OnJetton` and `OnNFT` each put the
given handler in the slot of their own category and leave the two other slots
and every other field of `Sub` as they were; a second registration replaces
the first, so that the loop invokes the latest handler only; and a `Sub`
created by `New` holds a no-op handler in its three slots, so that the loop
leaves the application state unchanged whatever the feed. -/
theorem handler_registry {σ : Type} (s : Sub σ) :
    (∀ f, (s.OnTON f).clbTon = f ∧ (s.OnTON f).clbJetton = s.clbJetton ∧
      (s.OnTON f).clbNFT = s.clbNFT ∧ (s.OnTON f).Context = s.Context ∧
      (s.OnTON f).Block = s.Block ∧ (s.OnTON f).Api = s.Api ∧ (s.OnTON f).lt = s.lt) ∧
    (∀ f, (s.OnJetton f).clbJetton = f ∧ (s.OnJetton f).clbTon = s.clbTon ∧
      (s.OnJetton f).clbNFT = s.clbNFT ∧ (s.OnJetton f).Context = s.Context ∧
      (s.OnJetton f).Block = s.Block ∧ (s.OnJetton f).Api = s.Api ∧
      (s.OnJetton f).lt = s.lt) ∧
    (∀ f, (s.OnNFT f).clbNFT = f ∧ (s.OnNFT f).clbTon = s.clbTon ∧
      (s.OnNFT f).clbJetton = s.clbJetton ∧ (s.OnNFT f).Context = s.Context ∧
      (s.OnNFT f).Block = s.Block ∧ (s.OnNFT f).Api = s.Api ∧ (s.OnNFT f).lt = s.lt) ∧
    (∀ f g, (s.OnTON f).OnTON g = s.OnTON g ∧
      ∀ r st, ((s.OnTON f).OnTON g).invoke (.clbTon r) st = g r st) ∧
    (∀ f g, (s.OnJetton f).OnJetton g = s.OnJetton g ∧
      ∀ r st, ((s.OnJetton f).OnJetton g).invoke (.clbJetton r) st = g r st) ∧
    (∀ f g, (s.OnNFT f).OnNFT g = s.OnNFT g ∧
      ∀ r st, ((s.OnNFT f).OnNFT g).invoke (.clbNFT r) st = g r st) ∧
    (∀ session s0, New σ session = .ok s0 →
      (∀ r st, s0.clbTon r st = st) ∧ (∀ r st, s0.clbJetton r st = st) ∧
      (∀ r st, s0.clbNFT r st = st) ∧ ∀ channel st, s0.run channel st = st) := by
  refine ⟨?_, ?_, ?_, ?_, ?_, ?_, ?_⟩
  · intro f
    exact ⟨rfl, rfl, rfl, rfl, rfl, rfl, rfl⟩
  · intro f
    exact ⟨rfl, rfl, rfl, rfl, rfl, rfl, rfl⟩
  · intro f
    exact ⟨rfl, rfl, rfl, rfl, rfl, rfl, rfl⟩
  · intro f g
    exact ⟨rfl, fun _ _ => rfl⟩
  · intro f g
    exact ⟨rfl, fun _ _ => rfl⟩
  · intro f g
    exact ⟨rfl, fun _ _ => rfl⟩
  · intro session s0 h
    obtain ⟨block, lastTxLT, hs⟩ := New_ok_inv σ session s0 h
    have ht : ∀ r st, s0.clbTon r st = st := by
      intro r st; rw [hs]
    have hj : ∀ r st, s0.clbJetton r st = st := by
      intro r st; rw [hs]
    have hn : ∀ r st, s0.clbNFT r st = st := by
      intro r st; rw [hs]
    exact ⟨ht, hj, hn, run_noop s0 hj ht hn⟩

theorem handler_registry_witness :
    ∃ s0 : Sub Nat, New Nat sampleSession = .ok s0 ∧
      ∀ channel st, s0.run channel st = st :=
  ⟨_, rfl, fun channel st =>
    ((@handler_registry Nat
        { Context := 0, Block := 0, Api := sampleEnv, lt := 0,
          clbJetton := fun _ st => st + 1, clbTon := fun _ st => st + 1,
          clbNFT := fun _ st => st + 1 }).2.2.2.2.2.2
      sampleSession _ rfl).2.2.2 channel st⟩

theorem TonBody_envelope (env : Env) (m : InternalMessage) (r : RootTON)
    (h : TonBody env m = .ok r) : r.envelope = envelopeOf env m := by
  unfold TonBody at h
  cases hc : loadComment m.Body.BeginParse with
  | error e => simp [hc] at h
  | ok text =>
    simp only [hc] at h
    injection h with h
    rw [← h]
    rfl

theorem JettonBody_ok_inv (env : Env) (ti : InternalMessage) (r : RootJetton)
    (h : JettonBody env (some ti) = .ok r) :
    ∃ c q a s sl text,
      jettonFields ti.Body.BeginParse = .ok (c, q, a, s, sl) ∧
      jettonComment sl = .ok text ∧
      r.Body = { OpCode := c, QueryID := q, Amount := toString a,
                 Sender := env.addrString s, Message := text } ∧
      r.envelope = envelopeOf env ti := by
  unfold JettonBody at h
  cases hf : jettonFields ti.Body.BeginParse with
  | error e => simp [hf] at h
  | ok v =>
    obtain ⟨c, q, a, s, sl⟩ := v
    simp only [hf] at h
    cases hc : jettonComment sl with
    | error e => simp [hc] at h
    | ok text =>
      simp only [hc] at h
      injection h with h
      refine ⟨c, q, a, s, sl, text, rfl, hc, ?_, ?_⟩
      · rw [← h]
      · rw [← h]
        rfl

theorem NFTBody_envelope (env : Env) (m : InternalMessage) (qs : List Query) (r : RootNFT)
    (h : NFTBody env m = (qs, .ok r)) : r.envelope = envelopeOf env m := by
  unfold NFTBody at h
  cases hp : env.parseAddr (env.addrString m.SrcAddr) with
  | none => simp [hp] at h
  | some nftAddr =>
    simp only [hp] at h
    cases hd : env.getNFTData nftAddr with
    | error e => simp [hd] at h
    | ok d =>
      simp only [hd] at h
      cases hm : resolveMeta env d with
      | mk qm res =>
        simp only [hm] at h
        cases res with
        | error e => simp at h
        | ok metaURI =>
          cases hc : loadComment m.Body.BeginParse with
          | error e => simp [hc] at h
          | ok text =>
            simp only [hc] at h
            have := (Prod.mk.inj h).2
            injection this with hr
            rw [← hr]
            rfl

/-- C14. Envelope pass-through: whenever `TonBody`, `JettonBody` or `NFTBody`
succeeds on an internal message `m`, the envelope of the record is that of
`m`, whatever the body holds: the three flags, `CreatedLT` and `CreatedAt` are
copied unchanged and `SrcAddr`, `DstAddr`, `Amount`, `IHRFee` and `FwdFee` are
the string forms of the fields of `m`; hence the three decoders give the same
envelope for the same `m`. -/
theorem envelope_pass_through (env : Env) (m : InternalMessage) :
    (∀ r, TonBody env m = .ok r → r.envelope = envelopeOf env m) ∧
    (∀ r, JettonBody env (some m) = .ok r → r.envelope = envelopeOf env m) ∧
    (∀ qs r, NFTBody env m = (qs, .ok r) → r.envelope = envelopeOf env m) ∧
    (∀ rt rj qs rn, TonBody env m = .ok rt → JettonBody env (some m) = .ok rj →
      NFTBody env m = (qs, .ok rn) →
      rt.envelope = rj.envelope ∧ rj.envelope = rn.envelope) := by
  refine ⟨?_, ?_, ?_, ?_⟩
  · intro r h
    exact TonBody_envelope env m r h
  · intro r h
    obtain ⟨_, _, _, _, _, _, _, _, _, he⟩ := JettonBody_ok_inv env m r h
    exact he
  · intro qs r h
    exact NFTBody_envelope env m qs r h
  · intro rt rj qs rn ht hj hn
    obtain ⟨_, _, _, _, _, _, _, _, _, he⟩ := JettonBody_ok_inv env m rj hj
    rw [TonBody_envelope env m rt ht, he, NFTBody_envelope env m qs rn hn]
    exact ⟨rfl, rfl⟩

theorem envelope_pass_through_witness :
    ∃ r, TonBody sampleEnv (sampleMsg ownerAddr (inlineComment hello)) = .ok r ∧
      r.envelope = envelopeOf sampleEnv (sampleMsg ownerAddr (inlineComment hello)) ∧
      r.SrcAddr = "owner" ∧ r.Amount = "1000000000" ∧ r.CreatedLT = 41000000 :=
  ⟨_, rfl,
    (envelope_pass_through sampleEnv (sampleMsg ownerAddr (inlineComment hello))).1 _ rfl,
    rfl, rfl, rfl⟩

theorem loadUInt32_of_leading (body : Cell) (v : Nat) (h : leadingCode body = some v) :
    body.BeginParse.LoadUInt 32 = .ok (v, ⟨body.bits.drop 32, body.refs⟩) := by
  unfold leadingCode at h
  by_cases hl : body.bits.length < 32
  · simp [hl] at h
  · simp only [hl, if_false, Option.some.injEq] at h
    have hlt : bitsToNat (List.take 32 body.bits) < 2 ^ 64 := by
      have := bitsToNat_lt (List.take 32 body.bits)
      have hlen : (List.take 32 body.bits).length ≤ 32 := by simp
      calc bitsToNat (List.take 32 body.bits) < 2 ^ (List.take 32 body.bits).length := this
        _ ≤ 2 ^ 32 := Nat.pow_le_pow_right (by decide) hlen
        _ ≤ 2 ^ 64 := by decide
    unfold Slice.LoadUInt Cell.BeginParse
    have h1 : ¬ 256 < 32 := by decide
    subst h
    simp only [h1, hl, if_false, Nat.mod_eq_of_lt hlt]

theorem loadComment_of_leading (body : Cell) (v : Nat) (h : leadingCode body = some v)
    (hv : v ≠ 0) : loadComment body.BeginParse = .ok [] := by
  unfold loadComment
  rw [loadUInt32_of_leading body v h]
  simp [hv]

theorem loadOpCode_short (s : Slice) (h : s.bits.length < 32) :
    loadOpCode s = (0, s) := by
  unfold loadOpCode
  rw [loadUInt_short s 32 (by decide) h]

theorem jettonFields_opcode (body : Cell) (c q a : Nat) (s : Address) (sl : Slice)
    (h : jettonFields body.BeginParse = .ok (c, q, a, s, sl)) :
    leadingCode body = some c := by
  unfold jettonFields at h
  cases hlead : leadingCode body with
  | none =>
    have hlen : body.BeginParse.bits.length < 32 := leadingCode_none body hlead
    rw [loadOpCode_short _ hlen] at h
    simp only at h
    rw [loadUInt_short _ 64 (by decide) (by omega)] at h
    simp at h
  | some v =>
    have hfst := loadOpCode_fst body
    rw [hlead] at hfst
    simp only at hfst
    cases hlo : loadOpCode body.BeginParse with
    | mk oc sl1 =>
      rw [hlo] at h hfst
      simp only at h hfst
      cases h64 : sl1.LoadUInt 64 with
      | error e => simp [h64] at h
      | ok v64 =>
        obtain ⟨q1, sl2⟩ := v64
        simp only [h64] at h
        cases hco : sl2.LoadBigCoins with
        | error e => simp [hco] at h
        | ok vco =>
          obtain ⟨a1, sl3⟩ := vco
          simp only [hco] at h
          cases had : sl3.LoadAddr with
          | error e => simp [had] at h
          | ok vad =>
            obtain ⟨s1, sl4⟩ := vad
            simp only [had] at h
            injection h with h
            have hc : oc = c := (Prod.mk.inj h).1
            rw [← hc, hfst]

theorem processTx_nil_or_passes (env : Env) (tx : Transaction) :
    processTx env tx = [] ∨ ∃ ti, passes tx ti := by
  by_cases hd : tx.Description = .ordinary (some .ok)
  · exact Or.inl (processTx_bounced env tx hd)
  · cases hin : tx.In with
    | none => left; unfold processTx; rw [hin]
    | some m =>
      cases m with
      | internal ti => exact Or.inr ⟨ti, hin, hd⟩
      | externalIn => left; unfold processTx; rw [hin]
      | externalOut => left; unfold processTx; rw [hin]

theorem clbNFT_mem_processTx (env : Env) (tx : Transaction) (r : RootNFT)
    (h : Call.clbNFT r ∈ processTx env tx) :
    ∃ ti, passes tx ti ∧ leadingCode ti.Body = some 0x05138d91 ∧
      (NFTBody env ti).2 = .ok r := by
  rcases processTx_nil_or_passes env tx with hnil | ⟨ti, hp⟩
  · rw [hnil] at h
    simp at h
  · refine ⟨ti, hp, ?_⟩
    rw [processTx_passes env tx ti hp, loadOpCode_fst] at h
    cases hl : leadingCode ti.Body with
    | none =>
      rw [hl] at h
      simp only [Nat.reduceEqDiff, if_false, if_true] at h
      cases hT : TonBody env ti <;> simp [hT] at h
    | some v =>
      rw [hl] at h
      simp only at h
      by_cases h1 : v = 0x05138d91
      · subst h1
        simp only [if_true] at h
        refine ⟨rfl, ?_⟩
        cases hN : (NFTBody env ti).2 with
        | ok body =>
          rw [hN] at h
          simp at h
          rw [h]
        | error e => rw [hN] at h; simp at h
        | panic => rw [hN] at h; simp at h
      · rw [if_neg h1] at h
        split_ifs at h
        · cases hJ : JettonBody env (some ti) <;> simp [hJ] at h
        · cases hT : TonBody env ti <;> simp [hT] at h
        · simp at h

theorem clbJetton_mem_processTx (env : Env) (tx : Transaction) (r : RootJetton)
    (h : Call.clbJetton r ∈ processTx env tx) :
    ∃ ti, passes tx ti ∧ leadingCode ti.Body = some 0x7362d09c ∧
      JettonBody env (some ti) = .ok r := by
  rcases processTx_nil_or_passes env tx with hnil | ⟨ti, hp⟩
  · rw [hnil] at h
    simp at h
  · refine ⟨ti, hp, ?_⟩
    rw [processTx_passes env tx ti hp, loadOpCode_fst] at h
    cases hl : leadingCode ti.Body with
    | none =>
      rw [hl] at h
      simp only [Nat.reduceEqDiff, if_false, if_true] at h
      cases hT : TonBody env ti <;> simp [hT] at h
    | some v =>
      rw [hl] at h
      simp only at h
      by_cases h1 : v = 0x05138d91
      · rw [if_pos h1] at h
        cases hN : (NFTBody env ti).2 <;> simp [hN] at h
      · rw [if_neg h1] at h
        by_cases h2 : v = 0x7362d09c
        · subst h2
          simp only [if_true] at h
          refine ⟨rfl, ?_⟩
          cases hJ : JettonBody env (some ti) with
          | ok body =>
            rw [hJ] at h
            simp at h
            rw [h]
          | error e => rw [hJ] at h; simp at h
        · rw [if_neg h2] at h
          split_ifs at h
          · cases hT : TonBody env ti <;> simp [hT] at h
          · simp at h

theorem mem_subscribe (env : Env) (channel : List Transaction) (c : Call)
    (h : c ∈ subscribe env channel) : ∃ tx ∈ channel, c ∈ processTx env tx := by
  induction channel with
  | nil => simp [subscribe] at h
  | cons tx txs ih =>
    rw [subscribe, List.mem_append] at h
    rcases h with h | h
    · exact ⟨tx, by simp, h⟩
    · obtain ⟨tx2, hm, hc⟩ := ih h
      exact ⟨tx2, by simp [hm], hc⟩

/-- C15. Every record the loop delivers to the NFT handler has an empty
comment.  When the body starts with the code `0x05138d91` and `NFTBody`
succeeds, `Body.Message` is empty, whatever child or trailing bytes the body
carries: `NFTBody` reads the same leading 32 bits again as the sum-type tag of
the comment, and they are not zero.  So it is for every NFT handler call of
the loop, on any feed. -/
theorem NFT_record_comment_empty (env : Env) :
    (∀ ti qs r, leadingCode ti.Body = some 0x05138d91 → NFTBody env ti = (qs, .ok r) →
      r.Body.Message = []) ∧
    (∀ channel r, Call.clbNFT r ∈ subscribe env channel → r.Body.Message = []) := by
  have key : ∀ ti qs r, leadingCode ti.Body = some 0x05138d91 →
      NFTBody env ti = (qs, .ok r) → r.Body.Message = [] := by
    intro ti qs r hl h
    obtain ⟨_, _, _, _, text, _, _, _, hc, _, hr⟩ := NFTBody_ok_inv env ti qs r h
    rw [loadComment_of_leading ti.Body _ hl (by decide)] at hc
    injection hc with hc
    rw [hr, ← hc]
  refine ⟨key, ?_⟩
  intro channel r hmem
  obtain ⟨tx, _, hc⟩ := mem_subscribe env channel _ hmem
  obtain ⟨ti, _, hl, hN⟩ := clbNFT_mem_processTx env tx r hc
  exact key ti (NFTBody env ti).1 r hl (Prod.ext rfl hN)

theorem NFT_record_comment_empty_witness :
    ∃ qs r, NFTBody sampleEnv (sampleMsg itemAddr nftWithComment) = (qs, .ok r) ∧
      r.Body.Message = [] :=
  ⟨_, _, rfl,
    (NFT_record_comment_empty sampleEnv).1 (sampleMsg itemAddr nftWithComment) _ _
      (by decide) rfl⟩

/-- C16. The default-to-zero branch for the operation code in `JettonBody` never
reaches a returned record: whenever `JettonBody` succeeds on a (non-nil)
message, `Body.OpCode` is the big-endian value of the first 32 bits of the
body; a body of fewer than 32 bits is also too short for the 64-bit query
identifier, so the decode fails; and every record the loop delivers to the
Jetton handler, on any feed, has `Body.OpCode = 0x7362d09c`. -/
theorem Jetton_opcode_is_leading_code (env : Env) :
    (∀ ti r, JettonBody env (some ti) = .ok r →
      leadingCode ti.Body = some r.Body.OpCode) ∧
    (∀ ti, ti.Body.bits.length < 32 →
      JettonBody env (some ti) = .error (.loadQueryID .notEnoughData)) ∧
    (∀ channel r, Call.clbJetton r ∈ subscribe env channel →
      r.Body.OpCode = 0x7362d09c) := by
  have key : ∀ ti r, JettonBody env (some ti) = .ok r →
      leadingCode ti.Body = some r.Body.OpCode := by
    intro ti r h
    obtain ⟨c, q, a, s, sl, text, hf, _, hb, _⟩ := JettonBody_ok_inv env ti r h
    rw [hb]
    exact jettonFields_opcode ti.Body c q a s sl hf
  refine ⟨key, ?_, ?_⟩
  · intro ti hlen
    apply JettonBody_of_fields_error
    unfold jettonFields
    have hlen2 : ti.Body.BeginParse.bits.length < 32 := hlen
    rw [loadOpCode_short _ hlen2]
    simp only
    rw [loadUInt_short _ 64 (by decide) (by omega)]
  · intro channel r hmem
    obtain ⟨tx, _, hc⟩ := mem_subscribe env channel _ hmem
    obtain ⟨ti, _, hl, hJ⟩ := clbJetton_mem_processTx env tx r hc
    have := key ti r hJ
    rw [hl] at this
    injection this with this
    exact this.symm

theorem sample_scenarioB_decodes :
    ∃ r, JettonBody sampleEnv
        (some (sampleMsg ownerAddr (scenarioB 7 1000000000 ownerAddr [] []))) = .ok r := by
  have hf : jettonFields (sampleMsg ownerAddr (scenarioB 7 1000000000 ownerAddr [] [])).Body.BeginParse
      = .ok (0x7362d09c, 7, 1000000000, ownerAddr, ⟨[false], []⟩) := by
    have := jettonFields_store 0x7362d09c 7 1000000000 ownerAddr (by decide) (by decide)
      (by decide) ownerAddr_valid [false] []
    simpa [sampleMsg, scenarioB, Cell.BeginParse, Cell.bits, Cell.refs, List.append_assoc]
      using this
  obtain ⟨r, hr, _⟩ := JettonBody_of_fields sampleEnv _ _ _ _ _ _ [] hf
    (jettonComment_clear [] [])
  exact ⟨r, hr⟩

theorem Jetton_opcode_is_leading_code_witness :
    ∃ r, JettonBody sampleEnv
        (some (sampleMsg ownerAddr (scenarioB 7 1000000000 ownerAddr [] []))) = .ok r ∧
      leadingCode (scenarioB 7 1000000000 ownerAddr [] []) = some r.Body.OpCode :=
  match sample_scenarioB_decodes with
  | ⟨r, hr⟩ =>
    ⟨r, hr, (Jetton_opcode_is_leading_code sampleEnv).1
      (sampleMsg ownerAddr (scenarioB 7 1000000000 ownerAddr [] [])) r hr⟩

end Tonsub
